import Mathlib

/-
Verification of the field-extraction engine and phonetic transliterator of
the Odia2Eng record-of-rights pipeline (src/extractor.py).  Text is embedded
as `List Char` (Unicode code points); the regular expressions of the source
are embedded as values of a small regex AST with a backtracking matcher that
mirrors Python `re.search` (leftmost position, greedy and lazy quantifiers in
backtracking priority order).  External collaborators (the OCR engine and the
translation service) appear as parameters.
-/

namespace Odia2Eng

/-- Shorthand turning a string literal into the list of its characters. -/
def lc (s : String) : List Char := s.data

/-- Whitespace characters; stands in for Python's whitespace class (the
texts this pipeline handles contain only these). -/
def isWS (c : Char) : Bool :=
  c = ' ' || c = '\t' || c = '\n' || c = '\r' || c = Char.ofNat 11 || c = Char.ofNat 12

/-- ASCII decimal digit, the regex class written as 0-9 in the source. -/
def isDigitA (c : Char) : Bool := '0' ≤ c && c ≤ '9'

/-- Unicode decimal digit as matched by Python's backslash-d, restricted to
the ASCII and Odia digit blocks, the only ones reachable in this pipeline. -/
def isDigitU (c : Char) : Bool :=
  isDigitA c || (0xB66 ≤ c.toNat && c.toNat ≤ 0xB6F)

/-- A code point of the Odia block U+0B00 to U+0B7F, compiled in
`RoRDocumentExtractor.__init__` as `self._odia_re`. -/
def isOdia (c : Char) : Bool := 0xB00 ≤ c.toNat && c.toNat ≤ 0xB7F

/-- Whether the Odia range test `self._odia_re.search` succeeds. -/
def hasOdia (s : List Char) : Bool := s.any isOdia

/-- Python `str.strip`. -/
def strip (s : List Char) : List Char :=
  ((s.dropWhile isWS).reverse.dropWhile isWS).reverse

/-- Worker for `collapseWS`; the flag records whether the previous character
was part of a whitespace run already replaced by one space. -/
def collapseWSGo : Bool → List Char → List Char
  | _, [] => []
  | inRun, c :: rest =>
    if isWS c then
      if inRun then collapseWSGo true rest else ' ' :: collapseWSGo true rest
    else c :: collapseWSGo false rest

/-- Replacement of every whitespace run by a single space, the substitution
of a whitespace-plus pattern by one space in `odia_to_latin`. -/
def collapseWS (s : List Char) : List Char := collapseWSGo false s

/-- Python `s.replace(pq, r)` for a two-character pattern `p q` and a
one-character replacement `r`: leftmost, non-overlapping. -/
def replace2 (p q r : Char) : List Char → List Char
  | a :: b :: rest =>
    if a = p && b = q then r :: replace2 p q r rest
    else a :: replace2 p q r (b :: rest)
  | other => other

/-- Worker for `splitRuns` with an accumulator holding the current run
reversed. -/
def splitRunsGo (sep : Char → Bool) (acc : List Char) : List Char → List (List Char)
  | [] => if acc.isEmpty then [] else [acc.reverse]
  | c :: rest =>
    if sep c then
      if acc.isEmpty then splitRunsGo sep [] rest
      else acc.reverse :: splitRunsGo sep [] rest
    else splitRunsGo sep (c :: acc) rest

/-- Maximal runs of characters not satisfying `sep`, in order, empties
dropped; used for Python `str.split()` (whitespace) and for `re.split` on a
separator class followed by the strip-and-filter of the source. -/
def splitRuns (sep : Char → Bool) (s : List Char) : List (List Char) :=
  splitRunsGo sep [] s

/-- Line-break characters recognised here (Python `str.splitlines` also
accepts rarer Unicode breaks that cannot occur in this pipeline). -/
def isLB (c : Char) : Bool :=
  c = '\n' || c = '\r' || c = Char.ofNat 11 || c = Char.ofNat 12

/-- Worker for `splitlines`; carriage return plus line feed counts as a
single break, and a trailing break yields no extra empty line. -/
def splitlinesGo (acc : List Char) : List Char → List (List Char)
  | [] => if acc.isEmpty then [] else [acc.reverse]
  | ['\r'] => [acc.reverse]
  | '\r' :: '\n' :: rest2 => acc.reverse :: splitlinesGo [] rest2
  | '\r' :: c :: rest => acc.reverse :: splitlinesGo [] (c :: rest)
  | c :: rest =>
    if isLB c then acc.reverse :: splitlinesGo [] rest
    else splitlinesGo (c :: acc) rest

/-- Python `str.splitlines`. -/
def splitlines (s : List Char) : List (List Char) := splitlinesGo [] s

/-- Python `" ".join`. -/
def joinSpace : List (List Char) → List Char
  | [] => []
  | [l] => l
  | l :: rest => l ++ ' ' :: joinSpace rest

/-- Python `", ".join`. -/
def joinCommaSpace : List (List Char) → List Char
  | [] => []
  | [l] => l
  | l :: rest => l ++ ',' :: ' ' :: joinCommaSpace rest

/-- Python's substring test `pat in s`. -/
def containsSub (pat : List Char) : List Char → Bool
  | [] => pat.isEmpty
  | c :: rest => pat.isPrefixOf (c :: rest) || containsSub pat rest

/-- Worker for `findFrom`, carrying the index of the scan position. -/
def findSubGo (pat : List Char) : List Char → Nat → Option Nat
  | [], i => if pat.isEmpty then some i else none
  | c :: rest, i =>
    if pat.isPrefixOf (c :: rest) then some i else findSubGo pat rest (i + 1)

/-- Python `s.find(pat, start)`, with `none` for the result -1. -/
def findFrom (pat s : List Char) (start : Nat) : Option Nat :=
  (findSubGo pat (s.drop start) 0).map (· + start)

/-- Fueled worker for `replaceSub`; the fuel bounds the number of steps and
is never exhausted when the pattern is non-empty. -/
def replaceSubGo (pat rep : List Char) : Nat → List Char → List Char
  | _, [] => []
  | 0, s => s
  | n + 1, c :: rest =>
    if pat.isPrefixOf (c :: rest) then
      rep ++ replaceSubGo pat rep n ((c :: rest).drop pat.length)
    else c :: replaceSubGo pat rep n rest

/-- Python `s.replace(pat, rep)` for a non-empty `pat`: leftmost,
non-overlapping occurrences replaced. -/
def replaceSub (pat rep s : List Char) : List Char :=
  replaceSubGo pat rep s.length s

/-- Python `str.capitalize`: first character upper-cased, the rest
lower-cased (ASCII folding; the other characters here have no case). -/
def capitalizeWord : List Char → List Char
  | [] => []
  | c :: rest => c.toUpper :: rest.map Char.toLower

/-- The consonant table of `RoRDocumentExtractor.__init__`. -/
def consonants : List (Char × String) :=
  [('କ', "k"), ('ଖ', "kh"), ('ଗ', "g"), ('ଘ', "gh"), ('ଙ', "ng"),
   ('ଚ', "ch"), ('ଛ', "chh"), ('ଜ', "j"), ('ଝ', "jh"), ('ଞ', "ny"),
   ('ଟ', "t"), ('ଠ', "th"), ('ଡ', "d"), ('ଢ', "dh"), ('ଣ', "n"),
   ('ତ', "t"), ('ଥ', "th"), ('ଦ', "d"), ('ଧ', "dh"), ('ନ', "n"),
   ('ପ', "p"), ('ଫ', "ph"), ('ବ', "b"), ('ଭ', "bh"), ('ମ', "m"),
   ('ଯ', "y"), ('ର', "r"), ('ଲ', "l"), ('ଶ', "sh"), ('ଷ', "sh"),
   ('ସ', "s"), ('ହ', "h"), ('ଳ', "l")]

/-- The independent-vowel table of `RoRDocumentExtractor.__init__`. -/
def independent_vowels : List (Char × String) :=
  [('ଅ', "a"), ('ଆ', "aa"), ('ଇ', "i"), ('ଈ', "ii"), ('ଉ', "u"), ('ଊ', "uu"),
   ('ଋ', "ru"), ('ଏ', "e"), ('ଐ', "ai"), ('ଓ', "o"), ('ଔ', "au")]

/-- The dependent vowel-sign table of `RoRDocumentExtractor.__init__`. -/
def vowel_signs : List (Char × String) :=
  [('ା', "a"), ('ି', "i"), ('ୀ', "i"), ('ୁ', "u"), ('ୂ', "u"),
   ('ୃ', "ru"), ('େ', "e"), ('ୈ', "ai"), ('ୋ', "o"), ('ୌ', "au")]

/-- The diacritic table of `RoRDocumentExtractor.__init__`; the virama is
special-handled by the scan. -/
def diacritics : List (Char × String) :=
  [('୍', "_virama"), ('ଂ', "n"), ('ଃ', "h")]

/-- The virama (halant) mark U+0B4D. -/
def virama : Char := '୍'

/-- Left-to-right scan of `odia_to_latin` with one-character lookahead:
independent vowels, consonants (with virama and vowel-sign lookahead),
orphaned vowel signs, diacritics, and pass-through of everything else. -/
def translitLoop : List Char → List Char
  | [] => []
  | c :: rest =>
    match independent_vowels.lookup c with
    | some v => v.data ++ translitLoop rest
    | none =>
      match consonants.lookup c with
      | some base =>
        match rest with
        | d :: rest2 =>
          if d = virama then base.data ++ translitLoop rest2
          else
            match vowel_signs.lookup d with
            | some vs => base.data ++ vs.data ++ translitLoop rest2
            | none => base.data ++ 'a' :: translitLoop (d :: rest2)
        | [] => base.data ++ ['a']
      | none =>
        match vowel_signs.lookup c with
        | some vs => vs.data ++ translitLoop rest
        | none =>
          match diacritics.lookup c with
          | some dv => (if dv = "_virama" then [] else dv.data) ++ translitLoop rest
          | none => c :: translitLoop rest

/-- The transliterator `RoRDocumentExtractor.odia_to_latin`: pass-through
when the text is empty or has no Odia character, otherwise scan, collapse
whitespace, strip, fold doubled i and u, and capitalise each word. -/
def odia_to_latin (text : List Char) : List Char :=
  if text.isEmpty || !hasOdia text then text
  else
    let s := strip text
    let t := translitLoop s
    let t := strip (collapseWS t)
    let t := replace2 'i' 'i' 'i' t
    let t := replace2 'u' 'u' 'u' t
    joinSpace ((splitRuns isWS t).map capitalizeWord)

/-- Regex abstract syntax covering exactly the constructs used by the
source patterns: empty, one character, a character class, sequencing,
alternation, greedy option, greedy and lazy star of a class, and a
capturing group. -/
inductive RE where
  | eps : RE
  | ch : Char → RE
  | cls : (Char → Bool) → RE
  | cat : RE → RE → RE
  | alt : RE → RE → RE
  | opt : RE → RE
  | starCls : (Char → Bool) → RE
  | lstarCls : (Char → Bool) → RE
  | grp : RE → RE

/-- Remaining suffixes after a greedy class star, longest consumed first. -/
def starList (p : Char → Bool) : List Char → List (List Char)
  | [] => [[]]
  | c :: rest => if p c then starList p rest ++ [c :: rest] else [c :: rest]

/-- Remaining suffixes after a lazy class star, shortest consumed first. -/
def lstarList (p : Char → Bool) : List Char → List (List Char)
  | [] => [[]]
  | c :: rest => (c :: rest) :: (if p c then lstarList p rest else [])

/-- Backtracking matcher: all (remaining suffix, group-1 capture) pairs for
a match of `r` at the start of `s`, in Python backtracking priority order
(the head is the match `re.search` would report at this position). -/
def reMatches : RE → List Char → List (List Char × Option (List Char))
  | .eps, s => [(s, none)]
  | .ch a, s =>
    match s with
    | c :: rest => if c = a then [(rest, none)] else []
    | [] => []
  | .cls p, s =>
    match s with
    | c :: rest => if p c then [(rest, none)] else []
    | [] => []
  | .cat r1 r2, s =>
    (reMatches r1 s).flatMap fun m1 =>
      (reMatches r2 m1.1).map fun m2 => (m2.1, m2.2 <|> m1.2)
  | .alt r1 r2, s => reMatches r1 s ++ reMatches r2 s
  | .opt r, s => reMatches r s ++ [(s, none)]
  | .starCls p, s => (starList p s).map fun s2 => (s2, none)
  | .lstarCls p, s => (lstarList p s).map fun s2 => (s2, none)
  | .grp r, s => (reMatches r s).map fun m => (m.1, some (s.take (s.length - m.1.length)))

/-- Python `re.search`: scan start positions left to right, report the
first position where a match exists, as (start index, whole match,
group 1 capture). -/
def reSearch (r : RE) : List Char → Option (Nat × List Char × Option (List Char))
  | [] => (reMatches r []).head?.map fun m => (0, [], m.2)
  | c :: rest =>
    match (reMatches r (c :: rest)).head? with
    | some m => some (0, (c :: rest).take ((c :: rest).length - m.1.length), m.2)
    | none => (reSearch r rest).map fun q => (q.1 + 1, q.2)

/-- Literal regex for a word. -/
def reStr : List Char → RE
  | [] => .eps
  | c :: cs => .cat (.ch c) (reStr cs)

/-- The whitespace star used pervasively by the source patterns. -/
def reWS : RE := .starCls isWS

/-- The optional separator class, colon or dash. -/
def reSepOpt : RE := .opt (.cls fun c => c = ':' || c = '-')

/-- One-or-more of a class. -/
def rePlus (p : Char → Bool) : RE := .cat (.cls p) (.starCls p)

/-- The lazy dot star under DOTALL. -/
def reDot : RE := .lstarCls fun _ => true

/-- Pattern of the simple labelled fields (village, district, police
station, tehsil): keyword, optional whitespace and separator, then a
captured run of characters other than newline, comma and colon. -/
def simplePat (kw : String) : RE :=
  .cat (reStr (lc kw))
    (.cat reWS (.cat reSepOpt (.cat reWS
      (.grp (rePlus fun c => !(c = '\n' || c = ',' || c = ':'))))))

/-- The number-word fragment of the numeric patterns, with its two
spellings of the middle letter. -/
def reNumberWord : RE :=
  .cat (reStr (lc "ନ")) (.cat (.alt (reStr (lc "ମ")) (reStr (lc "ମ୍"))) (reStr (lc "ବର")))

/-- The shared tail of the numeric patterns: optional whitespace and
separator, then a captured digit run. -/
def reNumTail : RE :=
  .cat reWS (.cat reSepOpt (.cat reWS (.grp (rePlus isDigitA))))

/-- First police-station-number pattern. -/
def thanaNoPat1 : RE :=
  .cat (reStr (lc "ଥାନା")) (.cat reWS (.cat reNumberWord reNumTail))

/-- Second police-station-number pattern, with a lazy gap. -/
def thanaNoPat2 : RE :=
  .cat (reStr (lc "ଥାନା"))
    (.cat reWS (.cat reSepOpt (.cat reDot (.cat reNumberWord reNumTail))))

/-- Tehsil-number pattern. -/
def tehsilNoPat : RE :=
  .cat (reStr (lc "ତହସିଲ")) (.cat reWS (.cat reNumberWord reNumTail))

/-- First khata-number pattern, with an optional lazy gap up to the serial
word. -/
def khataPat1 : RE :=
  .cat (reStr (lc "ଖତିୟାନ"))
    (.cat (.opt (.cat reDot (reStr (lc "କ୍ରମିକ")))) (.cat reWS (.cat reNumberWord reNumTail)))

/-- Second khata-number pattern. -/
def khataPat2 : RE :=
  .cat (reStr (lc "ଖତିୟାନର"))
    (.cat reWS (.cat (reStr (lc "କ୍ରମିକ")) (.cat reWS (.cat reNumberWord reNumTail))))

/-- First plot-number pattern. -/
def plotPat1 : RE :=
  .cat (reStr (lc "ପ୍ଲଟ")) (.cat reWS (.cat reNumberWord reNumTail))

/-- Second plot-number pattern. -/
def plotPat2 : RE := .cat (reStr (lc "ପ୍ଲଟ")) reNumTail

/-- Class of the land-type capture: anything but newline and comma. -/
def isLandChar (c : Char) : Bool := !(c = '\n' || c = ',')

/-- First land-type pattern. -/
def landPat1 : RE :=
  .cat (reStr (lc "କିସମ"))
    (.cat reWS (.cat reSepOpt (.cat reWS (.grp (rePlus isLandChar)))))

/-- Second land-type pattern, with the conjunction letter. -/
def landPat2 : RE :=
  .cat (reStr (lc "କିସମ"))
    (.cat reWS (.cat (reStr (lc "ଓ")) (.cat reWS (.grp (rePlus isLandChar)))))

/-- Third land-type pattern, anchored on the lexical marker word. -/
def landPat3 : RE := .grp (.cat (reStr (lc "ପଦର")) (rePlus isLandChar))

/-- The tertiary land-type fallback pattern: the marker word followed by
characters other than digits, comma and period. -/
def landFallbackPat : RE :=
  .grp (.cat (reStr (lc "ପଦର"))
    (rePlus fun c => !(isDigitU c || c = ',' || c = '.')))

/-- First area pattern: a captured decimal number, optionally followed by a
hectare word (the source lists the same word twice). -/
def areaPat1 : RE :=
  .cat (.grp (.cat (rePlus isDigitA) (.cat (.ch '.') (rePlus isDigitA))))
    (.cat reWS (.opt (.alt (reStr (lc "ହେକ୍ଟର")) (reStr (lc "ହେକ୍ଟର")))))

/-- Second area pattern: just the captured decimal number. -/
def areaPat2 : RE :=
  .grp (.cat (rePlus isDigitA) (.cat (.ch '.') (rePlus isDigitA)))

/-- First owner start pattern, with an optional numbered-list prefix. -/
def ownerStart1 : RE :=
  .cat (.opt (.cat (rePlus isDigitU) (.cat (.ch ')') reWS)))
    (.cat (reStr (lc "ପ୍ରଜାର")) (.cat reWS (reStr (lc "ନାମ"))))

/-- Second owner start pattern. -/
def ownerStart2 : RE :=
  .cat (reStr (lc "ଜମିଦାରଙ୍କ")) (.cat reWS (reStr (lc "ନାମ")))

/-- Third owner start pattern, the fallback spelling with trailing
separators. -/
def ownerStart3 : RE :=
  .cat (reStr (lc "ପ୍ରଜାର ନାମ")) (.starCls fun c => c = ',' || c = ':' || isWS c)

/-- A run of two or more ASCII digits, the fallback guard pattern. -/
def run2Pat : RE := .cat (.cls isDigitA) (.cat (.cls isDigitA) (.starCls isDigitA))

/-- Body of the one-to-five-digit run: a digit then up to four more,
greedily. -/
def run15Body : RE :=
  .cat (.cls isDigitA) (.opt (.cat (.cls isDigitA) (.opt (.cat (.cls isDigitA)
    (.opt (.cat (.cls isDigitA) (.opt (.cls isDigitA))))))))

/-- A captured run of one to five ASCII digits, the fallback extraction
pattern. -/
def run15Pat : RE := .grp run15Body

/-- The sentinel string of the source. -/
def notFound : List Char := lc "Not Found"

/-- The helper `RoRDocumentExtractor.find_value`: the first pattern whose
search succeeds wins; the value is its first non-empty captured group,
stripped, else the whole match, stripped; the sentinel when no pattern
succeeds. -/
def find_value : List RE → List Char → List Char
  | [], _ => notFound
  | p :: ps, text =>
    match reSearch p text with
    | some m =>
      match m.2.2 with
      | some g => if !g.isEmpty then strip g else strip m.2.1
      | none => strip m.2.1
    | none => find_value ps text

/-- Python `s.split(c)` on one character, keeping empty pieces. -/
def splitOnCh (sep : Char) (acc : List Char) : List Char → List (List Char)
  | [] => [acc.reverse]
  | c :: rest =>
    if c = sep then acc.reverse :: splitOnCh sep [] rest
    else splitOnCh sep (c :: acc) rest

/-- First whitespace-delimited token, Python `val.split()[0]` for the
stripped non-empty values it is applied to. -/
def firstToken (val : List Char) : List Char := val.takeWhile fun c => !isWS c

/-- The helper `RoRDocumentExtractor.get_value_from_lines`: first line
containing the keyword; the first token after a colon when the line has
one, else the first token of the line with the keyword removed; sentinel
when the remainder is empty or no line contains the keyword. -/
def get_value_from_lines (keyword : List Char) : List (List Char) → List Char
  | [] => notFound
  | line :: rest =>
    if containsSub keyword line then
      let parts := splitOnCh ':' [] line
      if parts.length > 1 then
        let val := strip (parts.getD 1 [])
        if !val.isEmpty then firstToken val else notFound
      else
        let val := strip (replaceSub keyword [] line)
        if !val.isEmpty then firstToken val else notFound
    else get_value_from_lines keyword rest

/-- Start-marker search of `extract_owner_names_block`: the three start
patterns tried in order, yielding the end offset of the first match. -/
def ownerStartIdx (full_text : List Char) : Option Nat :=
  match reSearch ownerStart1 full_text with
  | some m => some (m.1 + m.2.1.length)
  | none =>
    match reSearch ownerStart2 full_text with
    | some m => some (m.1 + m.2.1.length)
    | none =>
      match reSearch ownerStart3 full_text with
      | some m => some (m.1 + m.2.1.length)
      | none => none

/-- The stop-keyword list bounding the owner block. -/
def stop_keywords : List (List Char) :=
  [lc "ସ୍ଵତ୍ତ୍", lc "ସ୍ଵତ୍ଵ", lc "ଖଜଣା", lc "ସେସ୍", lc "ନିସ୍ତାର", lc "ଡ଼ାଖଲ",
   lc "2)", lc "3)", lc "4)", lc "5)",
   lc "ଖତିୟାନ", lc "ପ୍ଲଟ", lc "କ୍ରମିକ", lc "କିସମ", lc "ଅନ୍ୟାନ୍ୟ", lc "ଅନ୍ତିମ",
   lc "ରାଷ୍ଟ୍ରୀୟ"]

/-- Characters stripped inside an owner block: ASCII digits, brackets,
dash and colon. -/
def isJunk (c : Char) : Bool :=
  isDigitA c || c = '[' || c = ']' || c = '(' || c = ')' || c = '-' || c = ':'

/-- Worker replacing every junk run by one space, the second substitution
of `extract_owner_names_block`. -/
def subJunkGo : Bool → List Char → List Char
  | _, [] => []
  | inRun, c :: rest =>
    if isJunk c then
      if inRun then subJunkGo true rest else ' ' :: subJunkGo true rest
    else c :: subJunkGo false rest

/-- The junk substitution of `extract_owner_names_block`. -/
def subJunk (s : List Char) : List Char := subJunkGo false s

/-- The son-of substitution of `extract_owner_names_block`: the two
characters ପ and ି, optionally followed by colon, period or dash, replaced
by a comma; leftmost, non-overlapping. -/
def subPi : List Char → List Char
  | a :: b :: rest =>
    if a = 'ପ' && b = 'ି' then
      ',' :: (match rest with
        | d :: rest2 => if d = ':' || d = '.' || d = '-' then subPi rest2 else subPi (d :: rest2)
        | [] => [])
    else a :: subPi (b :: rest)
  | other => other

/-- Python slice `s[a:b]` for natural bounds. -/
def slice (a b : Nat) (s : List Char) : List Char := (s.take b).drop a

/-- The owner-list extractor
`RoRDocumentExtractor.extract_owner_names_block`: block between the start
marker and the nearest stop keyword, normalised; when no start marker
is found, the first line containing a comma and an Odia character, raw;
empty otherwise. -/
def extract_owner_names_block (full_text : List Char) (lines : List (List Char)) : List Char :=
  match ownerStartIdx full_text with
  | some start_idx =>
    let end_idx := stop_keywords.foldl
      (fun e kw =>
        match findFrom kw full_text start_idx with
        | some k => if k < e then k else e
        | none => e) full_text.length
    strip (subJunk (subPi (strip (slice start_idx end_idx full_text))))
  | none =>
    match lines.find? (fun line => containsSub [','] line && hasOdia line) with
    | some line => line
    | none => []

/-- External translator: `none` when construction failed, otherwise a
callable whose `none` result models a raised exception. -/
abbrev Translator := Option (List Char → Option (List Char))

/-- The guard `RoRDocumentExtractor.translate_field`: pass through empty
text and the sentinel, pass through when no translator is available, and on
a translation error fall back to the original text. -/
def translate_field (translator : Translator) (text : List Char) : List Char :=
  if text.isEmpty || text = notFound then text
  else
    match translator with
    | none => text
    | some tr =>
      match tr (strip text) with
      | some res => res
      | none => text

/-- The stripped non-empty line list built at the top of `extract_info`. -/
def linesOf (odia_text : List Char) : List (List Char) :=
  ((splitlines odia_text).map strip).filter fun l => !l.isEmpty

/-- The whitespace-joined full text built at the top of `extract_info`. -/
def fullTextOf (odia_text : List Char) : List Char := joinSpace (linesOf odia_text)

/-- Village field of `extract_info`: pattern, then line fallback. -/
def village_odia (full_text : List Char) (lines : List (List Char)) : List Char :=
  let v := find_value [simplePat "ମୌଜା"] full_text
  if v = notFound then get_value_from_lines (lc "ମୌଜା") lines else v

/-- District field of `extract_info`: pattern, then line fallback. -/
def district_odia (full_text : List Char) (lines : List (List Char)) : List Char :=
  let v := find_value [simplePat "ଜିଲ୍ଲା"] full_text
  if v = notFound then get_value_from_lines (lc "ଜିଲ୍ଲା") lines else v

/-- Police-station field of `extract_info`: pattern, then line fallback. -/
def thana_odia (full_text : List Char) (lines : List (List Char)) : List Char :=
  let v := find_value [simplePat "ଥାନା"] full_text
  if v = notFound then get_value_from_lines (lc "ଥାନା") lines else v

/-- Tehsil field of `extract_info`: pattern, then line fallback. -/
def tehsil_odia (full_text : List Char) (lines : List (List Char)) : List Char :=
  let v := find_value [simplePat "ତହସିଲ"] full_text
  if v = notFound then get_value_from_lines (lc "ତହସିଲ") lines else v

/-- The police-station-number line fallback of `extract_info`: first line
containing the keyword and a run of two or more digits; from it, the first
run of one to five digits. -/
def thanaNoFallback : List (List Char) → List Char
  | [] => notFound
  | line :: rest =>
    if containsSub (lc "ଥାନା") line && (reSearch run2Pat line).isSome then
      match reSearch run15Pat line with
      | some m =>
        match m.2.2 with
        | some g => g
        | none => thanaNoFallback rest
      | none => thanaNoFallback rest
    else thanaNoFallback rest

/-- Police-station-number field of `extract_info`. -/
def thana_no (full_text : List Char) (lines : List (List Char)) : List Char :=
  let v := find_value [thanaNoPat1, thanaNoPat2] full_text
  if v = notFound then thanaNoFallback lines else v

/-- Tehsil-number field of `extract_info`. -/
def tehsil_no (full_text : List Char) : List Char :=
  find_value [tehsilNoPat] full_text

/-- Khata-number field of `extract_info`. -/
def khata_no (full_text : List Char) : List Char :=
  find_value [khataPat1, khataPat2] full_text

/-- Plot-number field of `extract_info`. -/
def plot_no (full_text : List Char) : List Char :=
  find_value [plotPat1, plotPat2] full_text

/-- Land-type field of `extract_info`, with the tertiary marker-word
fallback (its group always participates; the defensive branch keeps the
sentinel). -/
def land_type (full_text : List Char) : List Char :=
  let v := find_value [landPat1, landPat2, landPat3] full_text
  if v = notFound then
    match reSearch landFallbackPat full_text with
    | some m =>
      match m.2.2 with
      | some g => strip g
      | none => v
    | none => v
  else v

/-- Area field of `extract_info`. -/
def area_odia (full_text : List Char) : List Char :=
  find_value [areaPat1, areaPat2] full_text

/-- Owner-name candidates of `extract_info`: the block split on runs of
comma, newline and semicolon, stripped, empties dropped, and only
candidates containing an Odia character retained. -/
def owner_names_odia (full_text : List Char) (lines : List (List Char)) : List (List Char) :=
  let names_block := extract_owner_names_block full_text lines
  if names_block.isEmpty then []
  else
    let parts := ((splitRuns (fun c => c = ',' || c = '\n' || c = ';') names_block).map
      strip).filter fun p => !p.isEmpty
    parts.filter fun p => hasOdia p

/-- The main extraction `RoRDocumentExtractor.extract_info`, returning the
ordered key-value mapping; every value is a string (here a character
list). -/
def extract_info (translator : Translator) (odia_text : List Char) :
    List (String × List Char) :=
  let lines := linesOf odia_text
  let full_text := fullTextOf odia_text
  let village := village_odia full_text lines
  let district := district_odia full_text lines
  let thana := thana_odia full_text lines
  let thanaNo := thana_no full_text lines
  let tehsil := tehsil_odia full_text lines
  let tehsilNo := tehsil_no full_text
  let khataNo := khata_no full_text
  let plotNo := plot_no full_text
  let landType := land_type full_text
  let area := area_odia full_text
  let owners := owner_names_odia full_text lines
  [("Village Name (Odia)", village),
   ("Village Name (Latin)", if village ≠ notFound then odia_to_latin village else notFound),
   ("District (Odia)", district),
   ("District (Latin)", if district ≠ notFound then odia_to_latin district else notFound),
   ("Police Station (Thana) (Odia)", thana),
   ("Police Station (Thana) (Latin)",
     if thana ≠ notFound then odia_to_latin thana else notFound),
   ("Police Station No.", thanaNo),
   ("Tehsil (Odia)", tehsil),
   ("Tehsil (Latin)", if tehsil ≠ notFound then odia_to_latin tehsil else notFound),
   ("Tehsil No.", tehsilNo),
   ("Khata No.", khataNo),
   ("Plot No.", plotNo),
   ("Land Type (Odia)", landType),
   ("Land Type (English)",
     if landType ≠ notFound then
       let translated := translate_field translator landType
       if !translated.isEmpty then translated else odia_to_latin landType
     else notFound),
   ("Area (hectares)", if area ≠ notFound then area else notFound),
   ("Owner Names (Odia)", if !owners.isEmpty then joinCommaSpace owners else notFound),
   ("Owner Names (Latin)",
     if !owners.isEmpty then joinCommaSpace (owners.map odia_to_latin) else notFound)]

/-- The presentation helper `RoRDocumentExtractor.format_output`. -/
def format_output (info : List (String × List Char)) : List Char :=
  info.foldl (fun out kv => out ++ lc "- " ++ lc kv.1 ++ lc ": " ++ kv.2 ++ ['\n'])
    (lc "\n📑 Document Translation & Extracted Information\n\n")

/-- The wrapper `extract_ror_info`; the first argument stands for the text
produced by the external OCR collaborator `extract_text`, which yields the
empty string when OCR fails. -/
def extract_ror_info (translator : Translator) (ocr_text : List Char) : List Char :=
  if ocr_text.isEmpty then
    lc "❌ Could not extract text. Check file path and dependencies."
  else format_output (extract_info translator ocr_text)

/-- The fixed output schema keys, in insertion order. -/
def schemaKeys : List String :=
  ["Village Name (Odia)", "Village Name (Latin)", "District (Odia)",
   "District (Latin)", "Police Station (Thana) (Odia)",
   "Police Station (Thana) (Latin)", "Police Station No.", "Tehsil (Odia)",
   "Tehsil (Latin)", "Tehsil No.", "Khata No.", "Plot No.",
   "Land Type (Odia)", "Land Type (English)", "Area (hectares)",
   "Owner Names (Odia)", "Owner Names (Latin)"]

/-! Lemmas about the matcher. -/

theorem mem_starList_suffix {p : Char → Bool} {s s2 : List Char}
    (h : s2 ∈ starList p s) : s2 <:+ s := by
  induction s with
  | nil => simp [starList] at h; simp [h]
  | cons c rest ih =>
    simp only [starList] at h
    by_cases hp : p c
    · rw [if_pos hp] at h
      rcases List.mem_append.mp h with h | h
      · exact (ih h).trans (List.suffix_cons c rest)
      · simp [List.mem_singleton.mp h]
    · rw [if_neg hp] at h
      simp [List.mem_singleton.mp h]

theorem mem_lstarList_suffix {p : Char → Bool} {s s2 : List Char}
    (h : s2 ∈ lstarList p s) : s2 <:+ s := by
  induction s with
  | nil => simp [lstarList] at h; simp [h]
  | cons c rest ih =>
    simp only [lstarList, List.mem_cons] at h
    rcases h with h | h
    · simp [h]
    · by_cases hp : p c
      · rw [if_pos hp] at h
        exact (ih h).trans (List.suffix_cons c rest)
      · rw [if_neg hp] at h
        simp at h

theorem reMatches_suffix {r : RE} {s : List Char}
    {m : List Char × Option (List Char)} (h : m ∈ reMatches r s) : m.1 <:+ s := by
  induction r generalizing s m with
  | eps => simp [reMatches] at h; simp [h]
  | ch a =>
    cases s with
    | nil => simp [reMatches] at h
    | cons c rest =>
      simp only [reMatches] at h
      by_cases hc : c = a
      · rw [if_pos hc] at h
        rw [show m.1 = rest from by simp [List.mem_singleton.mp h]]
        exact List.suffix_cons c rest
      · rw [if_neg hc] at h
        simp at h
  | cls p =>
    cases s with
    | nil => simp [reMatches] at h
    | cons c rest =>
      simp only [reMatches] at h
      by_cases hc : p c
      · rw [if_pos hc] at h
        rw [show m.1 = rest from by simp [List.mem_singleton.mp h]]
        exact List.suffix_cons c rest
      · rw [if_neg hc] at h
        simp at h
  | cat r1 r2 ih1 ih2 =>
    simp only [reMatches, List.mem_flatMap, List.mem_map] at h
    obtain ⟨m1, hm1, m2, hm2, hm⟩ := h
    rw [show m.1 = m2.1 from by simp [← hm]]
    exact (ih2 hm2).trans (ih1 hm1)
  | alt r1 r2 ih1 ih2 =>
    simp only [reMatches, List.mem_append] at h
    rcases h with h | h
    · exact ih1 h
    · exact ih2 h
  | opt r ih =>
    simp only [reMatches, List.mem_append, List.mem_singleton] at h
    rcases h with h | h
    · exact ih h
    · simp [h]
  | starCls p =>
    simp only [reMatches, List.mem_map] at h
    obtain ⟨s2, hs2, hm⟩ := h
    rw [show m.1 = s2 from by simp [← hm]]
    exact mem_starList_suffix hs2
  | lstarCls p =>
    simp only [reMatches, List.mem_map] at h
    obtain ⟨s2, hs2, hm⟩ := h
    rw [show m.1 = s2 from by simp [← hm]]
    exact mem_lstarList_suffix hs2
  | grp r ih =>
    simp only [reMatches, List.mem_map] at h
    obtain ⟨m1, hm1, hm⟩ := h
    rw [show m.1 = m1.1 from by simp [← hm]]
    exact ih hm1

theorem reMatches_cat_mem {r1 r2 : RE} {s : List Char}
    {m : List Char × Option (List Char)} (h : m ∈ reMatches (.cat r1 r2) s) :
    ∃ m1, m1 ∈ reMatches r1 s ∧ ∃ m2, m2 ∈ reMatches r2 m1.1 ∧
      m = (m2.1, m2.2 <|> m1.2) := by
  simp only [reMatches, List.mem_flatMap, List.mem_map] at h
  obtain ⟨m1, hm1, m2, hm2, hm⟩ := h
  exact ⟨m1, hm1, m2, hm2, hm.symm⟩

theorem reMatches_grp_mem {r : RE} {s : List Char}
    {m : List Char × Option (List Char)} (h : m ∈ reMatches (.grp r) s) :
    ∃ m1, m1 ∈ reMatches r s ∧ m = (m1.1, some (s.take (s.length - m1.1.length))) := by
  simp only [reMatches, List.mem_map] at h
  obtain ⟨m1, hm1, hm⟩ := h
  exact ⟨m1, hm1, hm.symm⟩

theorem reMatches_cls_mem {p : Char → Bool} {s : List Char}
    {m : List Char × Option (List Char)} (h : m ∈ reMatches (.cls p) s) :
    ∃ c rest, s = c :: rest ∧ p c = true ∧ m = (rest, none) := by
  cases s with
  | nil => simp [reMatches] at h
  | cons c rest =>
    simp only [reMatches] at h
    by_cases hc : p c
    · rw [if_pos hc] at h
      exact ⟨c, rest, rfl, hc, List.mem_singleton.mp h⟩
    · rw [if_neg hc] at h
      simp at h

theorem reMatches_reStr_isPrefix {kw s : List Char}
    {m : List Char × Option (List Char)} (h : m ∈ reMatches (reStr kw) s) :
    kw <+: s := by
  induction kw generalizing s m with
  | nil => exact List.nil_prefix
  | cons c cs ih =>
    simp only [reStr] at h
    obtain ⟨m1, hm1, m2, hm2, _⟩ := reMatches_cat_mem h
    cases s with
    | nil => simp [reMatches] at hm1
    | cons d rest =>
      simp only [reMatches] at hm1
      by_cases hd : d = c
      · rw [if_pos hd] at hm1
        subst hd
        rw [show m1.1 = rest from by simp [List.mem_singleton.mp hm1]] at hm2
        exact List.cons_prefix_cons.mpr ⟨rfl, ih hm2⟩
      · rw [if_neg hd] at hm1
        simp at hm1

theorem reSearch_some_mem {r : RE} {s : List Char}
    {q : Nat × List Char × Option (List Char)} (h : reSearch r s = some q) :
    ∃ s' m, s' <:+ s ∧ m ∈ reMatches r s' ∧ q.2.2 = m.2 := by
  induction s generalizing q with
  | nil =>
    simp only [reSearch, Option.map_eq_some'] at h
    obtain ⟨m, hm, hq⟩ := h
    exact ⟨[], m, List.nil_suffix, List.mem_of_mem_head? (by simp [hm]),
      by simp [← hq]⟩
  | cons c rest ih =>
    simp only [reSearch] at h
    cases hh : (reMatches r (c :: rest)).head? with
    | some m =>
      rw [hh] at h
      refine ⟨c :: rest, m, List.suffix_refl _, List.mem_of_mem_head? (by simp [hh]), ?_⟩
      simp only [Option.some_inj] at h
      simp [← h]
    | none =>
      rw [hh] at h
      simp only [Option.map_eq_some'] at h
      obtain ⟨q', hq', hq⟩ := h
      obtain ⟨s', m, hs', hm, h2⟩ := ih hq'
      exact ⟨s', m, hs'.trans (List.suffix_cons c rest), hm, by simp [← hq, h2]⟩

/-! Substring test versus the infix order. -/

theorem containsSub_iff {pat s : List Char} :
    containsSub pat s = true ↔ pat <:+: s := by
  induction s with
  | nil =>
    simp only [containsSub, List.isEmpty_iff]
    constructor
    · intro h; simp [h]
    · intro h; exact List.sublist_nil.mp h.sublist
  | cons c rest ih =>
    simp only [containsSub, Bool.or_eq_true, List.isPrefixOf_iff_prefix, ih]
    constructor
    · rintro (h | h)
      · exact h.isInfix
      · exact h.trans (List.suffix_cons c rest).isInfix
    · intro h
      rcases List.infix_iff_prefix_suffix.mp h with ⟨t, hpt, hts⟩
      rcases hts with ⟨u, hu⟩
      cases u with
      | nil =>
        left
        have ht : t = c :: rest := by simpa using hu
        exact ht ▸ hpt
      | cons d u2 =>
        right
        have ht : t <:+ rest := ⟨u2, by simpa using congrArg List.tail hu⟩
        exact List.infix_iff_prefix_suffix.mpr ⟨t, hpt, ht⟩

theorem containsSub_of_isInfix {pat s t : List Char} (h : containsSub pat t = true)
    (hts : t <:+: s) : containsSub pat s = true :=
  containsSub_iff.mpr ((containsSub_iff.mp h).trans hts)

/-! A successful search of a pattern that demands a literal keyword puts
that keyword inside the text, and contrapositives. -/

theorem mem_cat_fst {r1 r2 : RE} {s : List Char} {m : List Char × Option (List Char)}
    (h : m ∈ reMatches (.cat r1 r2) s) : ∃ m1, m1 ∈ reMatches r1 s :=
  let ⟨m1, hm1, _⟩ := reMatches_cat_mem h
  ⟨m1, hm1⟩

theorem mem_grp_fst {r : RE} {s : List Char} {m : List Char × Option (List Char)}
    (h : m ∈ reMatches (.grp r) s) : ∃ m1, m1 ∈ reMatches r s :=
  let ⟨m1, hm1, _⟩ := reMatches_grp_mem h
  ⟨m1, hm1⟩

theorem search_kw_head {kw : List Char} {r : RE} {s : List Char}
    {q : Nat × List Char × Option (List Char)}
    (h : reSearch (.cat (reStr kw) r) s = some q) : containsSub kw s = true := by
  obtain ⟨s', m, hs', hm, _⟩ := reSearch_some_mem h
  obtain ⟨m1, hm1⟩ := mem_cat_fst hm
  exact containsSub_iff.mpr ((reMatches_reStr_isPrefix hm1).isInfix.trans hs'.isInfix)

theorem search_kw_second {kw : List Char} {r0 r : RE} {s : List Char}
    {q : Nat × List Char × Option (List Char)}
    (h : reSearch (.cat r0 (.cat (reStr kw) r)) s = some q) :
    containsSub kw s = true := by
  obtain ⟨s', m, hs', hm, _⟩ := reSearch_some_mem h
  obtain ⟨m1, hm1, m2, hm2, _⟩ := reMatches_cat_mem hm
  obtain ⟨m3, hm3⟩ := mem_cat_fst hm2
  have h1 : kw <+: m1.1 := reMatches_reStr_isPrefix hm3
  have h2 : m1.1 <:+ s' := reMatches_suffix hm1
  exact containsSub_iff.mpr ((h1.isInfix.trans h2.isInfix).trans hs'.isInfix)

theorem search_kw_grp {kw : List Char} {r : RE} {s : List Char}
    {q : Nat × List Char × Option (List Char)}
    (h : reSearch (.grp (.cat (reStr kw) r)) s = some q) :
    containsSub kw s = true := by
  obtain ⟨s', m, hs', hm, _⟩ := reSearch_some_mem h
  obtain ⟨m1, hm1⟩ := mem_grp_fst hm
  obtain ⟨m2, hm2⟩ := mem_cat_fst hm1
  exact containsSub_iff.mpr ((reMatches_reStr_isPrefix hm2).isInfix.trans hs'.isInfix)

theorem search_none_of_kw {kw : List Char} {r : RE} {s : List Char}
    (hk : containsSub kw s = false) : reSearch (.cat (reStr kw) r) s = none := by
  cases h : reSearch (.cat (reStr kw) r) s with
  | none => rfl
  | some q => exact absurd (search_kw_head h) (by simp [hk])

theorem search_none_of_kw_second {kw : List Char} {r0 r : RE} {s : List Char}
    (hk : containsSub kw s = false) :
    reSearch (.cat r0 (.cat (reStr kw) r)) s = none := by
  cases h : reSearch (.cat r0 (.cat (reStr kw) r)) s with
  | none => rfl
  | some q => exact absurd (search_kw_second h) (by simp [hk])

theorem search_none_of_kw_grp {kw : List Char} {r : RE} {s : List Char}
    (hk : containsSub kw s = false) :
    reSearch (.grp (.cat (reStr kw) r)) s = none := by
  cases h : reSearch (.grp (.cat (reStr kw) r)) s with
  | none => rfl
  | some q => exact absurd (search_kw_grp h) (by simp [hk])

theorem search_cls_head {p : Char → Bool} {r : RE} {s : List Char}
    {q : Nat × List Char × Option (List Char)}
    (h : reSearch (.cat (.cls p) r) s = some q) : ∃ c ∈ s, p c = true := by
  obtain ⟨s', m, hs', hm, _⟩ := reSearch_some_mem h
  obtain ⟨m1, hm1⟩ := mem_cat_fst hm
  obtain ⟨c, rest, hcr, hpc, _⟩ := reMatches_cls_mem hm1
  exact ⟨c, hs'.isInfix.subset (hcr ▸ List.mem_cons_self c rest), hpc⟩

theorem search_none_cls_head {p : Char → Bool} {r : RE} {s : List Char}
    (hd : ∀ c ∈ s, p c = false) : reSearch (.cat (.cls p) r) s = none := by
  cases h : reSearch (.cat (.cls p) r) s with
  | none => rfl
  | some q =>
    obtain ⟨c, hc, hpc⟩ := search_cls_head h
    exact absurd hpc (by simp [hd c hc])

theorem search_area1_none {s : List Char}
    (hd : ∀ c ∈ s, isDigitA c = false) : reSearch areaPat1 s = none := by
  cases h : reSearch areaPat1 s with
  | none => rfl
  | some q =>
    obtain ⟨s', m, hs', hm, _⟩ := reSearch_some_mem h
    obtain ⟨m1, hm1⟩ := mem_cat_fst hm
    obtain ⟨m2, hm2⟩ := mem_grp_fst hm1
    obtain ⟨m3, hm3⟩ := mem_cat_fst hm2
    obtain ⟨m4, hm4⟩ := mem_cat_fst hm3
    obtain ⟨c, rest, hcr, hpc, _⟩ := reMatches_cls_mem hm4
    have hc : c ∈ s := hs'.isInfix.subset (hcr ▸ List.mem_cons_self c rest)
    exact absurd hpc (by simp [hd c hc])

theorem search_area2_none {s : List Char}
    (hd : ∀ c ∈ s, isDigitA c = false) : reSearch areaPat2 s = none := by
  cases h : reSearch areaPat2 s with
  | none => rfl
  | some q =>
    obtain ⟨s', m, hs', hm, _⟩ := reSearch_some_mem h
    obtain ⟨m2, hm2⟩ := mem_grp_fst hm
    obtain ⟨m3, hm3⟩ := mem_cat_fst hm2
    obtain ⟨m4, hm4⟩ := mem_cat_fst hm3
    obtain ⟨c, rest, hcr, hpc, _⟩ := reMatches_cls_mem hm4
    have hc : c ∈ s := hs'.isInfix.subset (hcr ▸ List.mem_cons_self c rest)
    exact absurd hpc (by simp [hd c hc])

/-! Lines are infixes of the joined full text. -/

theorem mem_joinSpace_isInfix {l : List Char} {ls : List (List Char)}
    (h : l ∈ ls) : l <:+: joinSpace ls := by
  induction ls with
  | nil => simp at h
  | cons x rest ih =>
    rcases List.mem_cons.mp h with h | h
    · subst h
      cases rest with
      | nil => exact List.infix_refl l
      | cons y ys => exact (List.prefix_append l (' ' :: joinSpace (y :: ys))).isInfix
    · cases rest with
      | nil => simp at h
      | cons y ys =>
        exact ((ih h).trans (List.suffix_cons ' ' (joinSpace (y :: ys))).isInfix).trans
          (List.suffix_append x (' ' :: joinSpace (y :: ys))).isInfix

theorem line_no_kw {kw t l : List Char} (hk : containsSub kw (fullTextOf t) = false)
    (hl : l ∈ linesOf t) : containsSub kw l = false := by
  cases hcl : containsSub kw l with
  | false => rfl
  | true =>
    have : containsSub kw (fullTextOf t) = true :=
      containsSub_of_isInfix hcl (mem_joinSpace_isInfix hl)
    simp [hk] at this

theorem line_char_mem {t l : List Char} {c : Char} (hl : l ∈ linesOf t)
    (hc : c ∈ l) : c ∈ fullTextOf t :=
  (mem_joinSpace_isInfix hl).subset hc

theorem gvl_notFound {kw : List Char} {lines : List (List Char)}
    (h : ∀ l ∈ lines, containsSub kw l = false) :
    get_value_from_lines kw lines = notFound := by
  induction lines with
  | nil => rfl
  | cons l rest ih =>
    rw [get_value_from_lines, if_neg (by simp [h l (List.mem_cons_self l rest)])]
    exact ih fun l2 h2 => h l2 (List.mem_cons_of_mem l h2)

/-! Lookup keys of the transliteration tables. -/

theorem mem_keys_of_lookup {l : List (Char × String)} {c : Char} {v : String}
    (h : l.lookup c = some v) : c ∈ l.map Prod.fst := by
  induction l with
  | nil => simp [List.lookup] at h
  | cons p rest ih =>
    obtain ⟨k, v2⟩ := p
    rw [List.lookup] at h
    cases hbeq : c == k with
    | true =>
      have hck : c = k := eq_of_beq hbeq
      simp [hck]
    | false =>
      rw [hbeq] at h
      simp only [List.map_cons]
      exact List.mem_cons_of_mem _ (ih h)

theorem indep_none_of_consonant {c : Char} {v : String}
    (h : consonants.lookup c = some v) : independent_vowels.lookup c = none := by
  have hm := mem_keys_of_lookup h
  simp only [consonants, List.map] at hm
  fin_cases hm <;> rfl

/-! C3, C4, C8, C9, C10 and C1. -/

/-- C3 counterexample: transliterating twice does not always equal
transliterating once.  The input yields "Aii୦" after one pass (the Odia
digit survives, so a second pass reprocesses the text and the doubled-i
fold fires again, giving "Ai୦"). -/
theorem c3_counterexample :
    odia_to_latin (odia_to_latin (lc "ଐଈଇ୦")) ≠ odia_to_latin (lc "ଐଈଇ୦") := by
  decide

/-- C3 (amended): a string with no Odia-script characters is returned
unchanged; consequently applying the transliterator twice agrees with
applying it once whenever the first output contains no Odia-script
characters. -/
theorem c3_no_script_passthrough :
    (∀ s : List Char, hasOdia s = false → odia_to_latin s = s) ∧
    (∀ s : List Char, hasOdia (odia_to_latin s) = false →
      odia_to_latin (odia_to_latin s) = odia_to_latin s) := by
  have base : ∀ s : List Char, hasOdia s = false → odia_to_latin s = s := by
    intro s h
    simp [odia_to_latin, h]
  exact ⟨base, fun s h => base (odia_to_latin s) h⟩

/-- C3 witness: the pass-through branch at a concrete Latin-only string. -/
theorem c3_witness :
    hasOdia (lc "hello") = false ∧ odia_to_latin (lc "hello") = lc "hello" :=
  ⟨by decide, c3_no_script_passthrough.1 (lc "hello") (by decide)⟩

/-- C4: empty recognised text short-circuits `extract_ror_info` into the
error report, which differs from the formatted all-sentinel mapping the
extractor would otherwise return. -/
theorem c4_empty_short_circuit : ∀ translator : Translator,
    extract_ror_info translator [] =
      lc "❌ Could not extract text. Check file path and dependencies." ∧
    extract_info translator [] = schemaKeys.map (fun k => (k, notFound)) ∧
    extract_ror_info translator [] ≠ format_output (extract_info translator []) := by
  intro tr
  refine ⟨rfl, rfl, ?_⟩
  rw [show extract_info tr [] = schemaKeys.map (fun k => (k, notFound)) from rfl]
  rw [show extract_ror_info tr [] =
    lc "❌ Could not extract text. Check file path and dependencies." from rfl]
  decide

set_option maxRecDepth 4096 in
/-- C8: every consonant of the table immediately followed by the virama is
emitted as exactly its base Latin form with no trailing vowel, and the scan
consumes both source characters. -/
theorem c8_consonant_virama : ∀ (c : Char) (base : String) (rest : List Char),
    consonants.lookup c = some base →
    translitLoop (c :: virama :: rest) = base.data ++ translitLoop rest := by
  intro c base rest hc
  have hi := indep_none_of_consonant hc
  simp [translitLoop, hi, hc]

/-- C8 witness: the first consonant of the table with a virama. -/
theorem c8_witness :
    consonants.lookup 'କ' = some "k" ∧
    translitLoop ('କ' :: virama :: lc "ଖ") = (lc "k") ++ translitLoop (lc "ଖ") :=
  ⟨rfl, c8_consonant_virama 'କ' "k" (lc "ଖ") rfl⟩

set_option maxRecDepth 4096 in
/-- C9: a consonant of the table not followed by a virama or a dependent
vowel sign is emitted as its base form plus the inherent vowel a, and the
scan advances exactly one character (the tail is transliterated
unchanged). -/
theorem c9_bare_consonant : ∀ (c : Char) (base : String) (rest : List Char),
    consonants.lookup c = some base →
    (∀ d, rest.head? = some d → d ≠ virama ∧ vowel_signs.lookup d = none) →
    translitLoop (c :: rest) = base.data ++ 'a' :: translitLoop rest := by
  intro c base rest hc hrest
  have hi := indep_none_of_consonant hc
  cases rest with
  | nil =>
    conv_lhs => rw [translitLoop.eq_def]
    simp [hi, hc, show translitLoop [] = [] from rfl]
  | cons d rest2 =>
    obtain ⟨hd1, hd2⟩ := hrest d rfl
    conv_lhs => rw [translitLoop.eq_def]
    simp [hi, hc, hd1, hd2]


/-- C9 witness: a bare consonant followed by a Latin digit. -/
theorem c9_witness :
    consonants.lookup 'ଖ' = some "kh" ∧
    translitLoop ('ଖ' :: lc "12") = (lc "kh") ++ 'a' :: translitLoop (lc "12") :=
  ⟨rfl, c9_bare_consonant 'ଖ' "kh" (lc "12") rfl (by decide)⟩

/-- C10: `translate_field` passes through the empty string and the sentinel
for every translator, and passes everything through when no translator is
available; in particular the result on the sentinel does not depend on the
translator, so the sentinel is never submitted to the external service. -/
theorem c10_translate_field_guards : ∀ (translator : Translator) (text : List Char),
    translate_field translator [] = [] ∧
    translate_field translator notFound = notFound ∧
    translate_field none text = text := by
  intro tr text
  refine ⟨by simp [translate_field], by simp [translate_field], ?_⟩
  unfold translate_field
  split <;> rfl

/-- C1 counterexample: with the translator unavailable, the Land Type
(English) value is the extracted Odia phrase itself, not its
transliteration, and the two differ. -/
theorem c1_counterexample :
    land_type (fullTextOf (lc "କିସମ: ଧାନ")) = lc "ଧାନ" ∧
    List.lookup "Land Type (English)" (extract_info none (lc "କିସମ: ଧାନ")) =
      some (lc "ଧାନ") ∧
    odia_to_latin (lc "ଧାନ") = lc "Dhana" ∧
    lc "ଧାନ" ≠ lc "Dhana" := by
  refine ⟨rfl, rfl, rfl, by decide⟩

/-- C1 (amended): when the translator is unavailable or raises on the
extracted land-type phrase, the Land Type (English) value is the extracted
Odia phrase itself (when that phrase is the sentinel or empty the value
coincides with it as well), and no error escapes. -/
theorem c1_translation_fallback :
    ∀ (translator : Translator) (t : List Char),
      (translator = none ∨
        ∃ f, translator = some f ∧ f (strip (land_type (fullTextOf t))) = none) →
      List.lookup "Land Type (English)" (extract_info translator t) =
        some (land_type (fullTextOf t)) := by
  intro tr t h
  have hstep : List.lookup "Land Type (English)" (extract_info tr t) =
      some (if land_type (fullTextOf t) ≠ notFound then
        (let translated := translate_field tr (land_type (fullTextOf t))
         if !translated.isEmpty then translated
         else odia_to_latin (land_type (fullTextOf t)))
        else notFound) := rfl
  rw [hstep]
  by_cases hnf : land_type (fullTextOf t) = notFound
  · simp [hnf]
  · have htf : translate_field tr (land_type (fullTextOf t)) =
        land_type (fullTextOf t) := by
      rcases h with h | ⟨f, hf, hff⟩
      · subst h
        unfold translate_field
        split <;> rfl
      · subst hf
        unfold translate_field
        split
        · rfl
        · show (match f (strip (land_type (fullTextOf t))) with
            | some res => res
            | none => land_type (fullTextOf t)) = land_type (fullTextOf t)
          rw [hff]
    rw [htf]
    by_cases he : (land_type (fullTextOf t)).isEmpty
    · have he2 : land_type (fullTextOf t) = [] := by simpa using he
      simp [hnf, he2, odia_to_latin]
    · simp [hnf, he]

/-- C1 witness: the fallback applied at a concrete document whose land type
is present, with the translator unavailable. -/
theorem c1_witness :
    List.lookup "Land Type (English)" (extract_info none (lc "କିସମ: ଗୋଚର")) =
      some (land_type (fullTextOf (lc "କିସମ: ଗୋଚର"))) :=
  c1_translation_fallback none (lc "କିସମ: ଗୋଚର") (Or.inl rfl)

/-- C2: for every input and translator, `extract_info` returns exactly the
fixed schema of keys in order (so no key is ever absent and the key-set
size is constant); every value is a string by construction; and a field
that both its pattern stage and its fallback stage leave unresolved is
mapped to the sentinel, together with its derived Latin or English
variants. -/
theorem c2_schema_and_sentinel : ∀ (translator : Translator) (t : List Char),
    (extract_info translator t).map Prod.fst = schemaKeys ∧
    (village_odia (fullTextOf t) (linesOf t) = notFound →
      List.lookup "Village Name (Odia)" (extract_info translator t) = some notFound ∧
      List.lookup "Village Name (Latin)" (extract_info translator t) = some notFound) ∧
    (district_odia (fullTextOf t) (linesOf t) = notFound →
      List.lookup "District (Odia)" (extract_info translator t) = some notFound ∧
      List.lookup "District (Latin)" (extract_info translator t) = some notFound) ∧
    (thana_odia (fullTextOf t) (linesOf t) = notFound →
      List.lookup "Police Station (Thana) (Odia)" (extract_info translator t) =
        some notFound ∧
      List.lookup "Police Station (Thana) (Latin)" (extract_info translator t) =
        some notFound) ∧
    (thana_no (fullTextOf t) (linesOf t) = notFound →
      List.lookup "Police Station No." (extract_info translator t) = some notFound) ∧
    (tehsil_odia (fullTextOf t) (linesOf t) = notFound →
      List.lookup "Tehsil (Odia)" (extract_info translator t) = some notFound ∧
      List.lookup "Tehsil (Latin)" (extract_info translator t) = some notFound) ∧
    (tehsil_no (fullTextOf t) = notFound →
      List.lookup "Tehsil No." (extract_info translator t) = some notFound) ∧
    (khata_no (fullTextOf t) = notFound →
      List.lookup "Khata No." (extract_info translator t) = some notFound) ∧
    (plot_no (fullTextOf t) = notFound →
      List.lookup "Plot No." (extract_info translator t) = some notFound) ∧
    (land_type (fullTextOf t) = notFound →
      List.lookup "Land Type (Odia)" (extract_info translator t) = some notFound ∧
      List.lookup "Land Type (English)" (extract_info translator t) = some notFound) ∧
    (area_odia (fullTextOf t) = notFound →
      List.lookup "Area (hectares)" (extract_info translator t) = some notFound) ∧
    (owner_names_odia (fullTextOf t) (linesOf t) = [] →
      List.lookup "Owner Names (Odia)" (extract_info translator t) = some notFound ∧
      List.lookup "Owner Names (Latin)" (extract_info translator t) = some notFound) := by
  intro tr t
  refine ⟨rfl, ?_, ?_, ?_, ?_, ?_, ?_, ?_, ?_, ?_, ?_, ?_⟩
  · intro h
    constructor
    · rw [show List.lookup "Village Name (Odia)" (extract_info tr t) =
        some (village_odia (fullTextOf t) (linesOf t)) from rfl, h]
    · rw [show List.lookup "Village Name (Latin)" (extract_info tr t) =
        some (if village_odia (fullTextOf t) (linesOf t) ≠ notFound then
          odia_to_latin (village_odia (fullTextOf t) (linesOf t)) else notFound)
        from rfl, h]
      simp
  · intro h
    constructor
    · rw [show List.lookup "District (Odia)" (extract_info tr t) =
        some (district_odia (fullTextOf t) (linesOf t)) from rfl, h]
    · rw [show List.lookup "District (Latin)" (extract_info tr t) =
        some (if district_odia (fullTextOf t) (linesOf t) ≠ notFound then
          odia_to_latin (district_odia (fullTextOf t) (linesOf t)) else notFound)
        from rfl, h]
      simp
  · intro h
    constructor
    · rw [show List.lookup "Police Station (Thana) (Odia)" (extract_info tr t) =
        some (thana_odia (fullTextOf t) (linesOf t)) from rfl, h]
    · rw [show List.lookup "Police Station (Thana) (Latin)" (extract_info tr t) =
        some (if thana_odia (fullTextOf t) (linesOf t) ≠ notFound then
          odia_to_latin (thana_odia (fullTextOf t) (linesOf t)) else notFound)
        from rfl, h]
      simp
  · intro h
    rw [show List.lookup "Police Station No." (extract_info tr t) =
      some (thana_no (fullTextOf t) (linesOf t)) from rfl, h]
  · intro h
    constructor
    · rw [show List.lookup "Tehsil (Odia)" (extract_info tr t) =
        some (tehsil_odia (fullTextOf t) (linesOf t)) from rfl, h]
    · rw [show List.lookup "Tehsil (Latin)" (extract_info tr t) =
        some (if tehsil_odia (fullTextOf t) (linesOf t) ≠ notFound then
          odia_to_latin (tehsil_odia (fullTextOf t) (linesOf t)) else notFound)
        from rfl, h]
      simp
  · intro h
    rw [show List.lookup "Tehsil No." (extract_info tr t) =
      some (tehsil_no (fullTextOf t)) from rfl, h]
  · intro h
    rw [show List.lookup "Khata No." (extract_info tr t) =
      some (khata_no (fullTextOf t)) from rfl, h]
  · intro h
    rw [show List.lookup "Plot No." (extract_info tr t) =
      some (plot_no (fullTextOf t)) from rfl, h]
  · intro h
    constructor
    · rw [show List.lookup "Land Type (Odia)" (extract_info tr t) =
        some (land_type (fullTextOf t)) from rfl, h]
    · rw [show List.lookup "Land Type (English)" (extract_info tr t) =
        some (if land_type (fullTextOf t) ≠ notFound then
          (let translated := translate_field tr (land_type (fullTextOf t))
           if !translated.isEmpty then translated
           else odia_to_latin (land_type (fullTextOf t)))
          else notFound) from rfl, h]
      simp
  · intro h
    rw [show List.lookup "Area (hectares)" (extract_info tr t) =
      some (if area_odia (fullTextOf t) ≠ notFound then area_odia (fullTextOf t)
        else notFound) from rfl, h]
    simp
  · intro h
    constructor
    · rw [show List.lookup "Owner Names (Odia)" (extract_info tr t) =
        some (if !(owner_names_odia (fullTextOf t) (linesOf t)).isEmpty then
          joinCommaSpace (owner_names_odia (fullTextOf t) (linesOf t)) else notFound)
        from rfl, h]
      simp
    · rw [show List.lookup "Owner Names (Latin)" (extract_info tr t) =
        some (if !(owner_names_odia (fullTextOf t) (linesOf t)).isEmpty then
          joinCommaSpace ((owner_names_odia (fullTextOf t) (linesOf t)).map
            odia_to_latin) else notFound) from rfl, h]
      simp

/-- C2 witness: the schema and the sentinel defaults at a concrete input
that resolves nothing. -/
theorem c2_witness :
    (extract_info none (lc "xy")).map Prod.fst = schemaKeys ∧
    List.lookup "Village Name (Odia)" (extract_info none (lc "xy")) = some notFound ∧
    List.lookup "Owner Names (Latin)" (extract_info none (lc "xy")) = some notFound :=
  ⟨(c2_schema_and_sentinel none (lc "xy")).1,
   ((c2_schema_and_sentinel none (lc "xy")).2.1 (by decide)).1,
   ((c2_schema_and_sentinel none (lc "xy")).2.2.2.2.2.2.2.2.2.2.2 (by decide)).2⟩

/-! Normalisation facts about the owner-block substitutions. -/

theorem containsSub_cons_of {pat c : _} {rest : List Char}
    (h : containsSub pat rest = true) : containsSub pat (c :: rest) = true := by
  rw [containsSub, h, Bool.or_true]

theorem strip_isInfix (s : List Char) : strip s <:+: s := by
  unfold strip
  have h1 : s.dropWhile isWS <:+ s := List.dropWhile_suffix isWS
  have h2 : (s.dropWhile isWS).reverse.dropWhile isWS <:+ (s.dropWhile isWS).reverse :=
    List.dropWhile_suffix isWS
  have h3 : ((s.dropWhile isWS).reverse.dropWhile isWS).reverse <+:
      ((s.dropWhile isWS).reverse).reverse := List.reverse_prefix.mpr h2
  rw [List.reverse_reverse] at h3
  exact h3.isInfix.trans h1.isInfix

theorem subPi_eq_nil (a b : Char) :
    subPi [a, b] = if a = 'ପ' && b = 'ି' then [','] else a :: subPi [b] := by
  rfl

theorem subPi_eq_cons (a b d : Char) (rest2 : List Char) :
    subPi (a :: b :: d :: rest2) =
      if a = 'ପ' && b = 'ି' then
        ',' :: (if d = ':' || d = '.' || d = '-' then subPi rest2
          else subPi (d :: rest2))
      else a :: subPi (b :: d :: rest2) := by
  rfl

theorem subPi_cons_neg {a b : Char} {rest : List Char}
    (hab : ¬(a = 'ପ' && b = 'ି') = true) :
    subPi (a :: b :: rest) = a :: subPi (b :: rest) := by
  cases rest with
  | nil => rw [subPi_eq_nil, if_neg hab]
  | cons d rest2 => rw [subPi_eq_cons, if_neg hab]

theorem subPi_head {s : List Char} {h : Char} (hh : (subPi s).head? = some h) :
    h = ',' ∨ s.head? = some h := by
  match s with
  | [] => simp [show subPi [] = [] from rfl] at hh
  | [a] =>
    rw [show subPi [a] = [a] from rfl] at hh
    right
    simpa using hh
  | a :: b :: rest =>
    by_cases hab : a = 'ପ' && b = 'ି'
    · left
      have hstep : ∃ X, subPi (a :: b :: rest) = ',' :: X := by
        cases rest with
        | nil => exact ⟨[], by rw [subPi_eq_nil, if_pos hab]⟩
        | cons d rest2 => exact ⟨_, by rw [subPi_eq_cons, if_pos hab]⟩
      obtain ⟨X, hX⟩ := hstep
      rw [hX] at hh
      simp only [List.head?_cons, Option.some_inj] at hh
      exact hh.symm
    · rw [subPi_cons_neg hab] at hh
      right
      simp only [List.head?_cons, Option.some_inj] at hh ⊢
      exact hh

theorem subPi_no_mark : ∀ (n : Nat) (s : List Char), s.length ≤ n →
    containsSub (lc "ପି") (subPi s) = false := by
  intro n
  induction n with
  | zero =>
    intro s hs
    have hnil : s = [] := List.eq_nil_of_length_eq_zero (Nat.le_zero.mp hs)
    subst hnil
    rfl
  | succ n ih =>
    intro s hs
    match s with
    | [] => rfl
    | [a] =>
      rw [show subPi [a] = [a] from rfl]
      simp [containsSub, lc, List.isPrefixOf]
    | a :: b :: rest =>
      by_cases hab : a = 'ପ' && b = 'ି'
      · cases rest with
        | nil =>
          rw [subPi_eq_nil, if_pos hab]
          decide
        | cons d rest2 =>
          rw [subPi_eq_cons, if_pos hab]
          have hlens : rest2.length + 3 ≤ n + 1 := by simpa using hs
          by_cases hd : d = ':' || d = '.' || d = '-'
          · rw [if_pos hd, containsSub, ih rest2 (by omega)]
            simp [lc, List.isPrefixOf]
          · rw [if_neg hd, containsSub,
              ih (d :: rest2) (by simp; omega)]
            simp [lc, List.isPrefixOf]
      · rw [subPi_cons_neg hab]
        have hlens : rest.length + 2 ≤ n + 1 := by simpa using hs
        have htail := ih (b :: rest) (by simp; omega)
        rw [containsSub, htail, Bool.or_false]
        cases hG : subPi (b :: rest) with
        | nil => simp [lc, List.isPrefixOf]
        | cons g G2 =>
          have hh2 : (subPi (b :: rest)).head? = some g := by rw [hG]; rfl
          have hg : g = ',' ∨ g = b := by
            rcases subPi_head hh2 with hgg | hgg
            · exact Or.inl hgg
            · right
              simp only [List.head?_cons, Option.some_inj] at hgg
              exact hgg.symm
          simp only [lc, String.data, List.isPrefixOf]
          have hbne : ¬(a = 'ପ' ∧ b = 'ି') := by simpa using hab
          by_cases ha : a = 'ପ'
          · have hb : b ≠ 'ି' := fun hbi => hbne ⟨ha, hbi⟩
            have hgne : g ≠ 'ି' := by
              rcases hg with hgg | hgg <;> subst hgg
              · decide
              · exact hb
            simp [ha, hgne]
            exact fun hig => hgne hig.symm
          · simp [ha]
            exact fun hpa => absurd hpa.symm ha

theorem subJunkGo_chars {b : Bool} {s : List Char} {c : Char}
    (h : c ∈ subJunkGo b s) : isJunk c = false := by
  induction s generalizing b with
  | nil => simp [subJunkGo] at h
  | cons d rest ih =>
    rw [subJunkGo] at h
    by_cases hd : isJunk d
    · rw [if_pos hd] at h
      cases b with
      | true =>
        rw [if_pos rfl] at h
        exact ih h
      | false =>
        rw [if_neg Bool.false_ne_true] at h
        rcases List.mem_cons.mp h with h | h
        · subst h; decide
        · exact ih h
    · rw [if_neg hd] at h
      rcases List.mem_cons.mp h with h | h
      · subst h
        simpa using hd
      · exact ih h

theorem subJunkGo_false_head {s : List Char} {h : Char}
    (hh : (subJunkGo false s).head? = some h) : h = ' ' ∨ s.head? = some h := by
  cases s with
  | nil => simp [subJunkGo] at hh
  | cons d rest =>
    rw [subJunkGo] at hh
    by_cases hd : isJunk d
    · rw [if_pos hd, if_neg Bool.false_ne_true] at hh
      left
      simp only [List.head?_cons, Option.some_inj] at hh
      exact hh.symm
    · rw [if_neg hd] at hh
      right
      simp only [List.head?_cons, Option.some_inj] at hh ⊢
      exact hh

theorem subJunkGo_pair (x y : Char) (hx2 : x ≠ ' ') (hy2 : y ≠ ' ') :
    ∀ {b : Bool} {s : List Char}, containsSub [x, y] (subJunkGo b s) = true →
      containsSub [x, y] s = true := by
  intro b s
  induction s generalizing b with
  | nil => simp [subJunkGo, containsSub, List.isPrefixOf]
  | cons d rest ih =>
    intro h
    rw [subJunkGo] at h
    by_cases hd : isJunk d
    · rw [if_pos hd] at h
      cases b with
      | true =>
        rw [if_pos rfl] at h
        exact containsSub_cons_of (ih h)
      | false =>
        rw [if_neg Bool.false_ne_true] at h
        rw [containsSub] at h
        rcases Bool.or_eq_true_iff.mp h with h | h
        · exfalso
          simp [List.isPrefixOf] at h
          exact hx2 h.1
        · exact containsSub_cons_of (ih h)
    · rw [if_neg hd] at h
      rw [containsSub] at h
      rcases Bool.or_eq_true_iff.mp h with h | h
      · cases hG : subJunkGo false rest with
        | nil =>
          rw [hG] at h
          simp [List.isPrefixOf] at h
        | cons g G2 =>
          rw [hG] at h
          simp only [List.isPrefixOf, Bool.and_eq_true, beq_iff_eq] at h
          obtain ⟨hdx, hgy, _⟩ := h
          have hg : g = ' ' ∨ rest.head? = some g :=
            subJunkGo_false_head (by simp [hG])
          rcases hg with hg | hg
          · exact absurd (hgy.trans hg) hy2
          · cases rest with
            | nil => simp at hg
            | cons e rest2 =>
              have he : e = g := by simpa using hg
              rw [containsSub]
              have : List.isPrefixOf [x, y] (d :: e :: rest2) = true := by
                simp [List.isPrefixOf, hdx, he, hgy.symm]
              rw [this, Bool.true_or]
      · exact containsSub_cons_of (ih h)

theorem block_normalised (Y : List Char) :
    containsSub (lc "ପି") (strip (subJunk (subPi Y))) = false ∧
    ∀ c ∈ strip (subJunk (subPi Y)), isJunk c = false := by
  constructor
  · cases hc : containsSub (lc "ପି") (strip (subJunk (subPi Y))) with
    | false => rfl
    | true =>
      exfalso
      have h1 := containsSub_of_isInfix hc (strip_isInfix _)
      have h2 := subJunkGo_pair 'ପ' 'ି' (by decide) (by decide) h1
      have h3 := subPi_no_mark Y.length Y (Nat.le_refl _)
      rw [show lc "ପି" = ['ପ', 'ି'] from rfl] at h3
      rw [h2] at h3
      exact Bool.false_ne_true h3.symm
  · intro c hc
    exact subJunkGo_chars ((strip_isInfix _).subset hc)

/-- C6 counterexample: with no start marker, the comma-line fallback hands
the raw line to the splitter; the retained owner candidates keep the
un-normalised son-of marker and the digits the claim says are stripped. -/
theorem c6_counterexample :
    List.lookup "Owner Names (Odia)"
        (extract_info none (lc "ରାମ ପି: ଶ୍ୟାମ, ହରି 12")) =
      some (lc "ରାମ ପି: ଶ୍ୟାମ, ହରି 12") ∧
    containsSub (lc "ପି") (lc "ରାମ ପି: ଶ୍ୟାମ, ହରି 12") = true ∧
    '1' ∈ lc "ରାମ ପି: ଶ୍ୟାମ, ହରି 12" ∧ isJunk '1' = true :=
  ⟨rfl, by decide, by decide, by decide⟩

/-- C6 (amended): every retained owner-name candidate contains at least one
Odia-script character, whichever path produced the block; and a block
obtained through a start marker has the son-of marker normalised away and
every residual digit, bracket, dash and colon stripped.  A block obtained
through the comma-line fallback is split raw, without that normalisation
(see the counterexample). -/
theorem c6_owner_block_normalisation :
    (∀ t n : List Char,
        n ∈ owner_names_odia (fullTextOf t) (linesOf t) → hasOdia n = true) ∧
    (∀ (full_text : List Char) (lines : List (List Char)) (si : Nat),
        ownerStartIdx full_text = some si →
        containsSub (lc "ପି") (extract_owner_names_block full_text lines) = false ∧
        ∀ c ∈ extract_owner_names_block full_text lines, isJunk c = false) := by
  constructor
  · intro t n h
    simp only [owner_names_odia] at h
    split at h
    · simp at h
    · exact (List.mem_filter.mp h).2
  · intro ft lines si h
    unfold extract_owner_names_block
    rw [h]
    exact block_normalised _

/-- C6 witness: the start-marker path at a concrete document, with the
normalised block and its surviving candidate. -/
theorem c6_witness :
    hasOdia (lc "ରାମ    କ  ହରି") = true ∧
    ownerStartIdx (fullTextOf (lc "ପ୍ରଜାର ନାମ: ରାମ 12 [କ] ହରି, ଖଜଣା 5")) = some 10 ∧
    containsSub (lc "ପି")
      (extract_owner_names_block
        (fullTextOf (lc "ପ୍ରଜାର ନାମ: ରାମ 12 [କ] ହରି, ଖଜଣା 5"))
        (linesOf (lc "ପ୍ରଜାର ନାମ: ରାମ 12 [କ] ହରି, ଖଜଣା 5"))) = false :=
  ⟨c6_owner_block_normalisation.1 (lc "ପ୍ରଜାର ନାମ: ରାମ 12 [କ] ହରି, ଖଜଣା 5")
      (lc "ରାମ    କ  ହରି") (by decide),
   rfl,
   (c6_owner_block_normalisation.2
      (fullTextOf (lc "ପ୍ରଜାର ନାମ: ରାମ 12 [କ] ହରି, ଖଜଣା 5"))
      (linesOf (lc "ପ୍ରଜାର ନାମ: ରାମ 12 [କ] ହରି, ଖଜଣା 5")) 10 rfl).1⟩

/-! Consumption invariants of the numeric patterns. -/

/-- Every match of `r` consumes only characters satisfying `p`. -/
def ConsumesOnly (p : Char → Bool) (r : RE) : Prop :=
  ∀ (s : List Char) (m : List Char × Option (List Char)), m ∈ reMatches r s →
    ∀ pre, pre ++ m.1 = s → ∀ c ∈ pre, p c = true

/-- Every match of `r` consumes at least one character. -/
def ConsumesSome (r : RE) : Prop :=
  ∀ (s : List Char) (m : List Char × Option (List Char)), m ∈ reMatches r s →
    m.1.length < s.length

/-- Every match of `r` consumes at most `n` characters. -/
def ConsumesAtMost (n : Nat) (r : RE) : Prop :=
  ∀ (s : List Char) (m : List Char × Option (List Char)), m ∈ reMatches r s →
    s.length ≤ m.1.length + n

theorem reMatches_opt_mem {r : RE} {s : List Char} {m : List Char × Option (List Char)}
    (h : m ∈ reMatches (.opt r) s) : m ∈ reMatches r s ∨ m = (s, none) := by
  simpa [reMatches, List.mem_append] using h

theorem consumesOnly_cls (p : Char → Bool) : ConsumesOnly p (.cls p) := by
  intro s m hm pre hpre c hc
  obtain ⟨d, rest, hdr, hpd, hmm⟩ := reMatches_cls_mem hm
  subst hdr
  have h1 : m.1 = rest := by simp [hmm]
  rw [h1] at hpre
  have hpd2 : pre = [d] := List.append_cancel_right (by simpa using hpre)
  rw [hpd2] at hc
  simp at hc
  rw [hc]
  exact hpd

theorem starList_consumed {p : Char → Bool} :
    ∀ {s s2 pre : List Char}, s2 ∈ starList p s → pre ++ s2 = s →
      ∀ c ∈ pre, p c = true := by
  intro s
  induction s with
  | nil =>
    intro s2 pre h hpre c hc
    simp [starList] at h
    subst h
    simp at hpre
    subst hpre
    simp at hc
  | cons d rest ih =>
    intro s2 pre h hpre c hc
    rw [starList] at h
    by_cases hp : p d
    · rw [if_pos hp] at h
      rcases List.mem_append.mp h with h | h
      · have hs2 : s2 <:+ rest := mem_starList_suffix h
        cases pre with
        | nil =>
          exfalso
          simp at hpre
          have := hs2.length_le
          rw [hpre] at this
          simp only [List.length_cons] at this
          omega
        | cons e pre2 =>
          have he : e = d ∧ pre2 ++ s2 = rest := by
            have := hpre
            simp at this
            exact ⟨this.1, this.2⟩
          rcases List.mem_cons.mp hc with hc | hc
          · rw [hc, he.1]
            exact hp
          · exact ih h he.2 c hc
      · simp at h
        rw [← h] at hpre
        have h0 : pre ++ s2 = [] ++ s2 := by rw [List.nil_append]; exact hpre
        have : pre = [] := List.append_cancel_right h0
        rw [this] at hc
        simp at hc
    · rw [if_neg hp] at h
      simp at h
      rw [← h] at hpre
      have h0 : pre ++ s2 = [] ++ s2 := by rw [List.nil_append]; exact hpre
      have : pre = [] := List.append_cancel_right h0
      rw [this] at hc
      simp at hc

theorem consumesOnly_starCls (p : Char → Bool) : ConsumesOnly p (.starCls p) := by
  intro s m hm pre hpre c hc
  simp only [reMatches, List.mem_map] at hm
  obtain ⟨s2, hs2, hm2⟩ := hm
  have h1 : m.1 = s2 := by simp [← hm2]
  rw [h1] at hpre
  exact starList_consumed hs2 hpre c hc

theorem consumesOnly_cat {p : Char → Bool} {r1 r2 : RE}
    (h1 : ConsumesOnly p r1) (h2 : ConsumesOnly p r2) :
    ConsumesOnly p (.cat r1 r2) := by
  intro s m hm pre hpre c hc
  obtain ⟨m1, hm1, m2, hm2, hmeq⟩ := reMatches_cat_mem hm
  obtain ⟨pre1, hpre1⟩ := reMatches_suffix hm1
  obtain ⟨pre2, hpre2⟩ := reMatches_suffix hm2
  have hm1' : m.1 = m2.1 := by simp [hmeq]
  rw [hm1'] at hpre
  have hs : (pre1 ++ pre2) ++ m2.1 = s := by
    rw [List.append_assoc, hpre2, hpre1]
  have hpp : pre = pre1 ++ pre2 :=
    List.append_cancel_right (hpre.trans hs.symm)
  rw [hpp] at hc
  rcases List.mem_append.mp hc with hc | hc
  · exact h1 s m1 hm1 pre1 hpre1 c hc
  · exact h2 m1.1 m2 hm2 pre2 hpre2 c hc

theorem consumesOnly_opt {p : Char → Bool} {r : RE} (h : ConsumesOnly p r) :
    ConsumesOnly p (.opt r) := by
  intro s m hm pre hpre c hc
  rcases reMatches_opt_mem hm with hm | hm
  · exact h s m hm pre hpre c hc
  · have h1 : m.1 = s := by simp [hm]
    rw [h1] at hpre
    have h0 : pre ++ s = [] ++ s := by rw [List.nil_append]; exact hpre
    have : pre = [] := List.append_cancel_right h0
    rw [this] at hc
    simp at hc

theorem consumesSome_cat_cls {p : Char → Bool} (r : RE) :
    ConsumesSome (.cat (.cls p) r) := by
  intro s m hm
  obtain ⟨m1, hm1, m2, hm2, hmeq⟩ := reMatches_cat_mem hm
  obtain ⟨d, rest, hdr, _, hm1eq⟩ := reMatches_cls_mem hm1
  have h1 : m.1 = m2.1 := by simp [hmeq]
  have h2 : m2.1.length ≤ m1.1.length := (reMatches_suffix hm2).length_le
  rw [h1]
  subst hdr
  have h3 : m1.1 = rest := by simp [hm1eq]
  rw [h3] at h2
  simp only [List.length_cons]
  omega

theorem consumesAtMost_cls (p : Char → Bool) : ConsumesAtMost 1 (.cls p) := by
  intro s m hm
  obtain ⟨d, rest, hdr, _, hmeq⟩ := reMatches_cls_mem hm
  subst hdr
  have h1 : m.1 = rest := by simp [hmeq]
  rw [h1]
  simp

theorem consumesAtMost_opt {n : Nat} {r : RE} (h : ConsumesAtMost n r) :
    ConsumesAtMost n (.opt r) := by
  intro s m hm
  rcases reMatches_opt_mem hm with hm | hm
  · exact h s m hm
  · have h1 : m.1 = s := by simp [hm]
    rw [h1]
    omega

theorem consumesAtMost_cat {j k : Nat} {r1 r2 : RE}
    (h1 : ConsumesAtMost j r1) (h2 : ConsumesAtMost k r2) :
    ConsumesAtMost (j + k) (.cat r1 r2) := by
  intro s m hm
  obtain ⟨m1, hm1, m2, hm2, hmeq⟩ := reMatches_cat_mem hm
  have ha := h1 s m1 hm1
  have hb := h2 m1.1 m2 hm2
  have hc : m.1 = m2.1 := by simp [hmeq]
  rw [hc]
  omega

/-- All capturing groups of `r` capture non-empty all-digit runs. -/
def GoodNumGrps : RE → Prop
  | .grp b => ConsumesOnly isDigitA b ∧ ConsumesSome b
  | .cat r1 r2 => GoodNumGrps r1 ∧ GoodNumGrps r2
  | .alt r1 r2 => GoodNumGrps r1 ∧ GoodNumGrps r2
  | .opt r => GoodNumGrps r
  | _ => True

/-- Some capturing group participates in every match of `r`. -/
def HasMandatoryGrp : RE → Prop
  | .grp _ => True
  | .cat r1 r2 => HasMandatoryGrp r1 ∨ HasMandatoryGrp r2
  | .alt r1 r2 => HasMandatoryGrp r1 ∧ HasMandatoryGrp r2
  | _ => False

theorem take_pre {pre suf s : List Char} (h : pre ++ suf = s) :
    s.take (s.length - suf.length) = pre := by
  subst h
  rw [List.length_append, Nat.add_sub_cancel, List.take_left]

theorem goodNum_capture {r : RE} {s : List Char} {m : List Char × Option (List Char)}
    (hg : GoodNumGrps r) (hm : m ∈ reMatches r s) :
    ∀ gv, m.2 = some gv → gv ≠ [] ∧ ∀ c ∈ gv, isDigitA c = true := by
  induction r generalizing s m with
  | eps =>
    intro gv hgv
    simp [reMatches] at hm
    rw [hm] at hgv
    simp at hgv
  | ch a =>
    intro gv hgv
    cases s with
    | nil => simp [reMatches] at hm
    | cons c rest =>
      simp only [reMatches] at hm
      by_cases hc : c = a
      · rw [if_pos hc] at hm
        simp at hm
        rw [hm] at hgv
        simp at hgv
      · rw [if_neg hc] at hm
        simp at hm
  | cls p =>
    intro gv hgv
    obtain ⟨d, rest, _, _, hmeq⟩ := reMatches_cls_mem hm
    rw [(by simp [hmeq] : m.2 = (none : Option (List Char)))] at hgv
    exact absurd hgv (by simp)
  | cat r1 r2 ih1 ih2 =>
    intro gv hgv
    obtain ⟨m1, hm1, m2, hm2, hmeq⟩ := reMatches_cat_mem hm
    have h2 : m.2 = (m2.2 <|> m1.2) := by simp [hmeq]
    cases hc2 : m2.2 with
    | some g2 =>
      rw [hc2] at h2
      simp at h2
      rw [h2] at hgv
      simp at hgv
      rw [← hgv]
      exact ih2 hg.2 hm2 g2 hc2
    | none =>
      rw [hc2] at h2
      simp at h2
      rw [h2] at hgv
      exact ih1 hg.1 hm1 gv hgv
  | alt r1 r2 ih1 ih2 =>
    intro gv hgv
    simp only [reMatches, List.mem_append] at hm
    rcases hm with hm | hm
    · exact ih1 hg.1 hm gv hgv
    · exact ih2 hg.2 hm gv hgv
  | opt r ih =>
    intro gv hgv
    rcases reMatches_opt_mem hm with hm | hm
    · exact ih hg hm gv hgv
    · rw [(by simp [hm] : m.2 = (none : Option (List Char)))] at hgv
      exact absurd hgv (by simp)
  | starCls p =>
    intro gv hgv
    simp only [reMatches, List.mem_map] at hm
    obtain ⟨s2, _, hm2⟩ := hm
    rw [(by simp [← hm2] : m.2 = (none : Option (List Char)))] at hgv
    exact absurd hgv (by simp)
  | lstarCls p =>
    intro gv hgv
    simp only [reMatches, List.mem_map] at hm
    obtain ⟨s2, _, hm2⟩ := hm
    rw [(by simp [← hm2] : m.2 = (none : Option (List Char)))] at hgv
    exact absurd hgv (by simp)
  | grp r ih =>
    intro gv hgv
    obtain ⟨m1, hm1, hmeq⟩ := reMatches_grp_mem hm
    obtain ⟨pre, hpre⟩ := reMatches_suffix hm1
    have hcap : m.2 = some pre := by
      rw [hmeq]
      simp [take_pre hpre]
    rw [hcap] at hgv
    simp at hgv
    subst hgv
    constructor
    · have hlen : m1.1.length < s.length := hg.2 s m1 hm1
      intro hnil
      rw [hnil] at hpre
      simp at hpre
      rw [hpre] at hlen
      omega
    · exact fun c hc => hg.1 s m1 hm1 pre hpre c hc

theorem mandatory_capture {r : RE} {s : List Char} {m : List Char × Option (List Char)}
    (hg : HasMandatoryGrp r) (hm : m ∈ reMatches r s) : m.2.isSome := by
  induction r generalizing s m with
  | eps => exact absurd hg (by simp [HasMandatoryGrp])
  | ch a => exact absurd hg (by simp [HasMandatoryGrp])
  | cls p => exact absurd hg (by simp [HasMandatoryGrp])
  | cat r1 r2 ih1 ih2 =>
    obtain ⟨m1, hm1, m2, hm2, hmeq⟩ := reMatches_cat_mem hm
    have h2 : m.2 = (m2.2 <|> m1.2) := by simp [hmeq]
    rcases hg with hg | hg
    · have := ih1 hg hm1
      rw [h2]
      cases hc2 : m2.2 with
      | some g2 => simp
      | none => simpa [hc2] using this
    · have := ih2 hg hm2
      rw [h2]
      cases hc2 : m2.2 with
      | some g2 => simp
      | none =>
        rw [hc2] at this
        simp at this
  | alt r1 r2 ih1 ih2 =>
    simp only [reMatches, List.mem_append] at hm
    rcases hm with hm | hm
    · exact ih1 hg.1 hm
    · exact ih2 hg.2 hm
  | opt r ih => exact absurd hg (by simp [HasMandatoryGrp])
  | starCls p => exact absurd hg (by simp [HasMandatoryGrp])
  | lstarCls p => exact absurd hg (by simp [HasMandatoryGrp])
  | grp r ih =>
    obtain ⟨m1, hm1, hmeq⟩ := reMatches_grp_mem hm
    rw [hmeq]
    simp

theorem digit_not_ws {c : Char} (h : isDigitA c = true) : isWS c = false := by
  cases hw : isWS c with
  | false => rfl
  | true =>
    exfalso
    simp [isWS] at hw
    rcases hw with ((((h1 | h1) | h1) | h1) | h1) | h1 <;> subst h1 <;>
      exact absurd h (by decide)

theorem dropWhile_all_false {l : List Char} (h : ∀ c ∈ l, isWS c = false) :
    l.dropWhile isWS = l := by
  cases l with
  | nil => rfl
  | cons c rest =>
    rw [List.dropWhile_cons, if_neg]
    simp [h c (List.mem_cons_self c rest)]

theorem strip_eq_self {g : List Char} (h : ∀ c ∈ g, isWS c = false) :
    strip g = g := by
  unfold strip
  rw [dropWhile_all_false h,
    dropWhile_all_false (fun c hc => h c (List.mem_reverse.mp hc)),
    List.reverse_reverse]

theorem find_value_cons_some {p : RE} {ps : List RE} {text : List Char}
    {q : Nat × List Char × Option (List Char)} (hs : reSearch p text = some q) :
    find_value (p :: ps) text =
      match q.2.2 with
      | some g => if !g.isEmpty then strip g else strip q.2.1
      | none => strip q.2.1 := by
  rw [find_value, hs]

theorem find_value_cons_none {p : RE} {ps : List RE} {text : List Char}
    (hs : reSearch p text = none) :
    find_value (p :: ps) text = find_value ps text := by
  rw [find_value, hs]

theorem find_value_digits {pats : List RE} {text : List Char}
    (h : ∀ p ∈ pats, GoodNumGrps p ∧ HasMandatoryGrp p) :
    find_value pats text = notFound ∨
      (find_value pats text ≠ [] ∧
        ∀ c ∈ find_value pats text, isDigitA c = true) := by
  induction pats with
  | nil => exact Or.inl rfl
  | cons p ps ih =>
    cases hs : reSearch p text with
    | none =>
      rw [find_value_cons_none hs]
      exact ih fun q hq => h q (List.mem_cons_of_mem _ hq)
    | some q =>
      obtain ⟨s', m, hsuf, hm, hq2⟩ := reSearch_some_mem hs
      obtain ⟨hgood, hmand⟩ := h p (List.mem_cons_self _ _)
      have hsome := mandatory_capture hmand hm
      rw [← hq2] at hsome
      obtain ⟨gv, hgv⟩ := Option.isSome_iff_exists.mp hsome
      have hcap := goodNum_capture hgood hm gv (hq2 ▸ hgv)
      rw [find_value_cons_some hs, hgv]
      have hne : gv.isEmpty = false := by
        cases hgve : gv with
        | nil => exact absurd hgve hcap.1
        | cons a l => rfl
      have hstrip : strip gv = gv :=
        strip_eq_self fun c hc => digit_not_ws (hcap.2 c hc)
      right
      simpa [hne, hstrip] using hcap

/-! The digit invariants hold for the concrete numeric patterns. -/

theorem goodNum_reStr (kw : List Char) : GoodNumGrps (reStr kw) := by
  induction kw with
  | nil => trivial
  | cons c cs ih => exact ⟨trivial, ih⟩

theorem consumesOnly_plus : ConsumesOnly isDigitA (rePlus isDigitA) :=
  consumesOnly_cat (consumesOnly_cls _) (consumesOnly_starCls _)

theorem consumesSome_plus : ConsumesSome (rePlus isDigitA) :=
  consumesSome_cat_cls _

theorem goodNum_numTail : GoodNumGrps reNumTail :=
  ⟨trivial, trivial, trivial, consumesOnly_plus, consumesSome_plus⟩

theorem goodNum_numberWord : GoodNumGrps reNumberWord :=
  ⟨goodNum_reStr _, ⟨goodNum_reStr _, goodNum_reStr _⟩, goodNum_reStr _⟩

theorem mand_numTail : HasMandatoryGrp reNumTail :=
  Or.inr (Or.inr (Or.inr trivial))

theorem goodNum_thanaNoPat1 : GoodNumGrps thanaNoPat1 :=
  ⟨goodNum_reStr _, trivial, goodNum_numberWord, goodNum_numTail⟩

theorem goodNum_thanaNoPat2 : GoodNumGrps thanaNoPat2 :=
  ⟨goodNum_reStr _, trivial, trivial, trivial, goodNum_numberWord, goodNum_numTail⟩

theorem goodNum_tehsilNoPat : GoodNumGrps tehsilNoPat :=
  ⟨goodNum_reStr _, trivial, goodNum_numberWord, goodNum_numTail⟩

theorem goodNum_khataPat1 : GoodNumGrps khataPat1 :=
  ⟨goodNum_reStr _, ⟨trivial, goodNum_reStr _⟩, trivial, goodNum_numberWord,
    goodNum_numTail⟩

theorem goodNum_khataPat2 : GoodNumGrps khataPat2 :=
  ⟨goodNum_reStr _, trivial, goodNum_reStr _, trivial, goodNum_numberWord,
    goodNum_numTail⟩

theorem goodNum_plotPat1 : GoodNumGrps plotPat1 :=
  ⟨goodNum_reStr _, trivial, goodNum_numberWord, goodNum_numTail⟩

theorem goodNum_plotPat2 : GoodNumGrps plotPat2 :=
  ⟨goodNum_reStr _, goodNum_numTail⟩

theorem mand_thanaNoPat1 : HasMandatoryGrp thanaNoPat1 :=
  Or.inr (Or.inr (Or.inr mand_numTail))

theorem mand_thanaNoPat2 : HasMandatoryGrp thanaNoPat2 :=
  Or.inr (Or.inr (Or.inr (Or.inr (Or.inr mand_numTail))))

theorem mand_tehsilNoPat : HasMandatoryGrp tehsilNoPat :=
  Or.inr (Or.inr (Or.inr mand_numTail))

theorem mand_khataPat1 : HasMandatoryGrp khataPat1 :=
  Or.inr (Or.inr (Or.inr (Or.inr mand_numTail)))

theorem mand_khataPat2 : HasMandatoryGrp khataPat2 :=
  Or.inr (Or.inr (Or.inr (Or.inr (Or.inr mand_numTail))))

theorem mand_plotPat1 : HasMandatoryGrp plotPat1 :=
  Or.inr (Or.inr (Or.inr mand_numTail))

theorem mand_plotPat2 : HasMandatoryGrp plotPat2 := Or.inr mand_numTail

/-! The fallback run pattern: its capture is a non-empty digit run of at
most five characters, and it matches whenever the line has a digit. -/

theorem consumesOnly_run15Body : ConsumesOnly isDigitA run15Body :=
  consumesOnly_cat (consumesOnly_cls _)
    (consumesOnly_opt (consumesOnly_cat (consumesOnly_cls _)
      (consumesOnly_opt (consumesOnly_cat (consumesOnly_cls _)
        (consumesOnly_opt (consumesOnly_cat (consumesOnly_cls _)
          (consumesOnly_opt (consumesOnly_cls _))))))))

theorem consumesSome_run15Body : ConsumesSome run15Body :=
  consumesSome_cat_cls _

theorem consumesAtMost_run15Body : ConsumesAtMost 5 run15Body :=
  consumesAtMost_cat (consumesAtMost_cls _)
    (consumesAtMost_opt (consumesAtMost_cat (consumesAtMost_cls _)
      (consumesAtMost_opt (consumesAtMost_cat (consumesAtMost_cls _)
        (consumesAtMost_opt (consumesAtMost_cat (consumesAtMost_cls _)
          (consumesAtMost_opt (consumesAtMost_cls _))))))))

theorem run15_capture {s : List Char} {q : Nat × List Char × Option (List Char)}
    (h : reSearch run15Pat s = some q) :
    ∃ g, q.2.2 = some g ∧ g ≠ [] ∧ (∀ c ∈ g, isDigitA c = true) ∧
      g.length ≤ 5 := by
  obtain ⟨s', m, hsuf, hm, hq⟩ := reSearch_some_mem h
  obtain ⟨m1, hm1, hmeq⟩ := reMatches_grp_mem hm
  obtain ⟨pre, hpre⟩ := reMatches_suffix hm1
  have hcap : m.2 = some pre := by
    rw [hmeq]
    simp [take_pre hpre]
  have hco := consumesOnly_run15Body s' m1 hm1 pre hpre
  have hcs := consumesSome_run15Body s' m1 hm1
  have hca := consumesAtMost_run15Body s' m1 hm1
  have hlen : s'.length = pre.length + m1.1.length := by
    rw [← hpre, List.length_append]
  refine ⟨pre, by rw [hq, hcap], ?_, hco, by omega⟩
  intro hnil
  rw [hnil] at hlen
  simp at hlen
  omega

theorem reSearch_none_all {r : RE} {s : List Char} (h : reSearch r s = none) :
    ∀ s', s' <:+ s → reMatches r s' = [] := by
  induction s with
  | nil =>
    intro s' hs'
    have : s' = [] := List.sublist_nil.mp hs'.sublist
    subst this
    simp only [reSearch] at h
    cases hh : (reMatches r []).head? with
    | some m => rw [hh] at h; simp at h
    | none => exact List.head?_eq_none_iff.mp hh
  | cons c rest ih =>
    intro s' hs'
    simp only [reSearch] at h
    cases hh : (reMatches r (c :: rest)).head? with
    | some m => rw [hh] at h; simp at h
    | none =>
      rw [hh] at h
      simp only [Option.map_eq_none'] at h
      rcases List.suffix_cons_iff.mp hs' with hs2 | hs2
      · rw [hs2]
        exact List.head?_eq_none_iff.mp hh
      · exact ih h s' hs2

theorem run15_matches_at_digit {c : Char} {rest : List Char}
    (hc : isDigitA c = true) : reMatches run15Pat (c :: rest) ≠ [] := by
  have h1 : (rest, (none : Option (List Char))) ∈
      reMatches (.cls isDigitA) (c :: rest) := by
    simp [reMatches, hc]
  have h2 : (rest, (none : Option (List Char))) ∈
      reMatches run15Body (c :: rest) := by
    rw [show run15Body = .cat (.cls isDigitA) (.opt (.cat (.cls isDigitA)
      (.opt (.cat (.cls isDigitA) (.opt (.cat (.cls isDigitA)
        (.opt (.cls isDigitA)))))))) from rfl]
    simp only [reMatches, List.mem_flatMap, List.mem_map]
    refine ⟨(rest, none), by simp [reMatches, hc],
      (rest, none), ?_, rfl⟩
    exact List.mem_append.mpr (Or.inr (by simp))
  have h3 : ((rest, some ((c :: rest).take ((c :: rest).length - rest.length))) :
      List Char × Option (List Char)) ∈ reMatches run15Pat (c :: rest) := by
    rw [show run15Pat = .grp run15Body from rfl]
    simp only [reMatches, List.mem_map]
    exact ⟨(rest, none), h2, rfl⟩
  exact List.ne_nil_of_mem h3

theorem run15_some {l : List Char} (h : ∃ c ∈ l, isDigitA c = true) :
    ∃ q, reSearch run15Pat l = some q := by
  cases hn : reSearch run15Pat l with
  | some q => exact ⟨q, rfl⟩
  | none =>
    exfalso
    obtain ⟨c, hcl, hdig⟩ := h
    obtain ⟨t, u, htu⟩ := List.append_of_mem hcl
    have hsuf : c :: u <:+ l := by
      rw [htu]
      exact ⟨t, rfl⟩
    exact run15_matches_at_digit hdig (reSearch_none_all hn (c :: u) hsuf)


theorem thanaNoFallback_cons_hit {l : List Char} {rest : List (List Char)}
    {q : Nat × List Char × Option (List Char)} {g : List Char}
    (hguard : (containsSub (lc "ଥାନା") l && (reSearch run2Pat l).isSome) = true)
    (h15 : reSearch run15Pat l = some q) (hg : q.2.2 = some g) :
    thanaNoFallback (l :: rest) = g := by
  rw [thanaNoFallback, if_pos hguard, h15]
  show (match q.2.2 with
    | some g2 => g2
    | none => thanaNoFallback rest) = g
  rw [hg]

theorem thanaNoFallback_cons_miss {l : List Char} {rest : List (List Char)}
    (hguard : (containsSub (lc "ଥାନା") l && (reSearch run2Pat l).isSome) = false) :
    thanaNoFallback (l :: rest) = thanaNoFallback rest := by
  rw [thanaNoFallback, if_neg (by simp [hguard])]

theorem thanaNoFallback_digits : ∀ lines : List (List Char),
    thanaNoFallback lines = notFound ∨
      (thanaNoFallback lines ≠ [] ∧
        (∀ c ∈ thanaNoFallback lines, isDigitA c = true) ∧
        (thanaNoFallback lines).length ≤ 5) := by
  intro lines
  induction lines with
  | nil => exact Or.inl rfl
  | cons l rest ih =>
    cases hguard : (containsSub (lc "ଥାନା") l && (reSearch run2Pat l).isSome) with
    | false =>
      rw [thanaNoFallback_cons_miss hguard]
      exact ih
    | true =>
      cases h15 : reSearch run15Pat l with
      | none =>
        rw [thanaNoFallback, if_pos hguard, h15]
        exact ih
      | some q =>
        obtain ⟨g, hg, hne, hdig, hlen⟩ := run15_capture h15
        rw [thanaNoFallback_cons_hit hguard h15 hg]
        exact Or.inr ⟨hne, hdig, hlen⟩

theorem thanaNoFallback_first :
    ∀ (pre : List (List Char)) (l : List Char) (post : List (List Char)),
      (∀ l2 ∈ pre,
        (containsSub (lc "ଥାନା") l2 && (reSearch run2Pat l2).isSome) = false) →
      (containsSub (lc "ଥାନା") l && (reSearch run2Pat l).isSome) = true →
      ∃ q g, reSearch run15Pat l = some q ∧ q.2.2 = some g ∧
        thanaNoFallback (pre ++ l :: post) = g := by
  intro pre
  induction pre with
  | nil =>
    intro l post _ hl
    have hr2 : (reSearch run2Pat l).isSome = true := (Bool.and_eq_true_iff.mp hl).2
    obtain ⟨q2, hq2⟩ := Option.isSome_iff_exists.mp hr2
    rw [show run2Pat = .cat (.cls isDigitA)
      (.cat (.cls isDigitA) (.starCls isDigitA)) from rfl] at hq2
    obtain ⟨c, hcl, hdig⟩ := search_cls_head hq2
    obtain ⟨q, hq⟩ := run15_some ⟨c, hcl, hdig⟩
    obtain ⟨g, hg, _, _, _⟩ := run15_capture hq
    refine ⟨q, g, hq, hg, ?_⟩
    rw [List.nil_append]
    exact thanaNoFallback_cons_hit hl hq hg
  | cons l2 pre2 ih =>
    intro l post hpre hl
    obtain ⟨q, g, hq, hg, hrec⟩ :=
      ih l post (fun x hx => hpre x (List.mem_cons_of_mem _ hx)) hl
    refine ⟨q, g, hq, hg, ?_⟩
    rw [List.cons_append,
      thanaNoFallback_cons_miss (hpre l2 (List.mem_cons_self _ _)), hrec]

theorem thanaPats_good :
    ∀ p ∈ [thanaNoPat1, thanaNoPat2], GoodNumGrps p ∧ HasMandatoryGrp p := by
  intro p hp
  rcases List.mem_cons.mp hp with rfl | hp
  · exact ⟨goodNum_thanaNoPat1, mand_thanaNoPat1⟩
  rcases List.mem_cons.mp hp with rfl | hp
  · exact ⟨goodNum_thanaNoPat2, mand_thanaNoPat2⟩
  simp at hp

/-- C7 counterexample: the police-station fallback returns a single digit
(the first one-to-five-digit run of the line), although the guard demanded
a two-or-more-digit run and the claim promises a run of two or more. -/
theorem c7_counterexample :
    List.lookup "Police Station No." (extract_info none (lc "ଥାନା 7 323")) =
      some (lc "7") ∧ (lc "7").length < 2 :=
  ⟨rfl, by decide⟩

/-- C7 (amended): the four numeric fields are always either the sentinel or
non-empty all-digit strings; and when the primary police-station-number
patterns fail, the fallback takes the first line containing the keyword
together with a run of two or more digits, and returns the first run of one
to five digits of that line, which may be a single digit. -/
theorem c7_numeric_fields :
    (∀ t : List Char,
      (thana_no (fullTextOf t) (linesOf t) = notFound ∨
        (thana_no (fullTextOf t) (linesOf t) ≠ [] ∧
          ∀ c ∈ thana_no (fullTextOf t) (linesOf t), isDigitA c = true)) ∧
      (tehsil_no (fullTextOf t) = notFound ∨
        (tehsil_no (fullTextOf t) ≠ [] ∧
          ∀ c ∈ tehsil_no (fullTextOf t), isDigitA c = true)) ∧
      (khata_no (fullTextOf t) = notFound ∨
        (khata_no (fullTextOf t) ≠ [] ∧
          ∀ c ∈ khata_no (fullTextOf t), isDigitA c = true)) ∧
      (plot_no (fullTextOf t) = notFound ∨
        (plot_no (fullTextOf t) ≠ [] ∧
          ∀ c ∈ plot_no (fullTextOf t), isDigitA c = true))) ∧
    (∀ (full_text l : List Char) (pre post : List (List Char)),
      find_value [thanaNoPat1, thanaNoPat2] full_text = notFound →
      (∀ l2 ∈ pre,
        (containsSub (lc "ଥାନା") l2 && (reSearch run2Pat l2).isSome) = false) →
      (containsSub (lc "ଥାନା") l && (reSearch run2Pat l).isSome) = true →
      ∃ q g, reSearch run15Pat l = some q ∧ q.2.2 = some g ∧
        thana_no full_text (pre ++ l :: post) = g ∧
        g ≠ [] ∧ (∀ c ∈ g, isDigitA c = true) ∧ g.length ≤ 5) := by
  constructor
  · intro t
    refine ⟨?_, ?_, ?_, ?_⟩
    · by_cases hfv : find_value [thanaNoPat1, thanaNoPat2] (fullTextOf t) = notFound
      · have hstep : thana_no (fullTextOf t) (linesOf t) =
            thanaNoFallback (linesOf t) := by
          simp only [thana_no]
          rw [if_pos hfv]
        rw [hstep]
        rcases thanaNoFallback_digits (linesOf t) with h | h
        · exact Or.inl h
        · exact Or.inr ⟨h.1, h.2.1⟩
      · have hstep : thana_no (fullTextOf t) (linesOf t) =
            find_value [thanaNoPat1, thanaNoPat2] (fullTextOf t) := by
          simp only [thana_no]
          rw [if_neg hfv]
        rw [hstep]
        rcases find_value_digits thanaPats_good with h | h
        · exact absurd h hfv
        · exact Or.inr h
    · rcases @find_value_digits [tehsilNoPat] (fullTextOf t)
        (by intro p hp
            rcases List.mem_cons.mp hp with rfl | hp
            · exact ⟨goodNum_tehsilNoPat, mand_tehsilNoPat⟩
            simp at hp) with h | h
      · exact Or.inl h
      · exact Or.inr h
    · rcases @find_value_digits [khataPat1, khataPat2] (fullTextOf t)
        (by intro p hp
            rcases List.mem_cons.mp hp with rfl | hp
            · exact ⟨goodNum_khataPat1, mand_khataPat1⟩
            rcases List.mem_cons.mp hp with rfl | hp
            · exact ⟨goodNum_khataPat2, mand_khataPat2⟩
            simp at hp) with h | h
      · exact Or.inl h
      · exact Or.inr h
    · rcases @find_value_digits [plotPat1, plotPat2] (fullTextOf t)
        (by intro p hp
            rcases List.mem_cons.mp hp with rfl | hp
            · exact ⟨goodNum_plotPat1, mand_plotPat1⟩
            rcases List.mem_cons.mp hp with rfl | hp
            · exact ⟨goodNum_plotPat2, mand_plotPat2⟩
            simp at hp) with h | h
      · exact Or.inl h
      · exact Or.inr h
  · intro full_text l pre post hfv hpre hl
    obtain ⟨q, g, hq, hg, hfb⟩ := thanaNoFallback_first pre l post hpre hl
    obtain ⟨g2, hg2, hne, hdig, hlen⟩ := run15_capture hq
    have hgg : g2 = g := by
      rw [hg] at hg2
      simpa using hg2.symm
    subst hgg
    refine ⟨q, g2, hq, hg, ?_, hne, hdig, hlen⟩
    have hstep : thana_no full_text (pre ++ l :: post) =
        thanaNoFallback (pre ++ l :: post) := by
      simp only [thana_no]
      rw [if_pos hfv]
    rw [hstep, hfb]

/-- C7 witness: the amended fallback behaviour at a concrete line whose
only keyword line holds a single digit before its longer run. -/
theorem c7_witness :
    ∃ q g, reSearch run15Pat (lc "ଥାନା 7 323") = some q ∧ q.2.2 = some g ∧
      thana_no (fullTextOf (lc "ଥାନା 7 323")) ([] ++ (lc "ଥାନା 7 323") :: []) = g ∧
      g ≠ [] ∧ (∀ c ∈ g, isDigitA c = true) ∧ g.length ≤ 5 :=
  c7_numeric_fields.2 (fullTextOf (lc "ଥାନା 7 323")) (lc "ଥାନା 7 323") [] []
    (by decide) (by decide) (by decide)


/-! Keyword-free texts resolve nothing (C5). -/

/-- The lexical keywords the extraction patterns are anchored on. -/
def fieldKeywords : List (List Char) :=
  [lc "ମୌଜା", lc "ଜିଲ୍ଲା", lc "ଥାନା", lc "ତହସିଲ", lc "ଖତିୟାନ", lc "ପ୍ଲଟ",
   lc "କିସମ", lc "ପଦର", lc "ପ୍ରଜାର", lc "ଜମିଦାରଙ୍କ"]

theorem containsSub_false_of_prefix {k1 k2 s : List Char} (hp : k1 <+: k2)
    (h : containsSub k1 s = false) : containsSub k2 s = false := by
  cases hc : containsSub k2 s with
  | false => rfl
  | true =>
    exfalso
    have : containsSub k1 s = true :=
      containsSub_iff.mpr (hp.isInfix.trans (containsSub_iff.mp hc))
    rw [h] at this
    exact Bool.false_ne_true this

theorem thanaNoFallback_nf :
    ∀ lines : List (List Char),
      (∀ l ∈ lines, containsSub (lc "ଥାନା") l = false) →
      thanaNoFallback lines = notFound := by
  intro lines h
  induction lines with
  | nil => rfl
  | cons l rest ih =>
    rw [thanaNoFallback_cons_miss (by simp [h l (List.mem_cons_self l rest)])]
    exact ih fun l2 h2 => h l2 (List.mem_cons_of_mem l h2)

/-- C5 counterexample: the text "1.5" contains no field keyword, yet the
area field resolves to "1.5" rather than the sentinel, because the area
heuristic matches any decimal number with no keyword anchor. -/
theorem c5_counterexample :
    (∀ kw ∈ fieldKeywords, containsSub kw (fullTextOf (lc "1.5")) = false) ∧
    List.lookup "Area (hectares)" (extract_info none (lc "1.5")) =
      some (lc "1.5") ∧
    lc "1.5" ≠ notFound :=
  ⟨by decide, rfl, by decide⟩

/-- C5 (amended): on input text containing no field keyword, no ASCII
decimal digit, and no line holding both a comma and an Odia-script
character, every field of the result is the sentinel; and on every input
whatsoever the output key list is the same full schema. -/
theorem c5_no_keywords_all_sentinel :
    (∀ (translator : Translator) (t : List Char),
      (∀ kw ∈ fieldKeywords, containsSub kw (fullTextOf t) = false) →
      (∀ c ∈ fullTextOf t, isDigitA c = false) →
      (∀ l ∈ linesOf t, (containsSub [','] l && hasOdia l) = false) →
      extract_info translator t = schemaKeys.map fun k => (k, notFound)) ∧
    (∀ (translator : Translator) (t : List Char),
      (extract_info translator t).map Prod.fst = schemaKeys) := by
  constructor
  · intro tr t h1 h2 h3
    have hkVil : containsSub (lc "ମୌଜା") (fullTextOf t) = false :=
      h1 _ (by simp [fieldKeywords])
    have hkDis : containsSub (lc "ଜିଲ୍ଲା") (fullTextOf t) = false :=
      h1 _ (by simp [fieldKeywords])
    have hkTha : containsSub (lc "ଥାନା") (fullTextOf t) = false :=
      h1 _ (by simp [fieldKeywords])
    have hkTeh : containsSub (lc "ତହସିଲ") (fullTextOf t) = false :=
      h1 _ (by simp [fieldKeywords])
    have hkKha : containsSub (lc "ଖତିୟାନ") (fullTextOf t) = false :=
      h1 _ (by simp [fieldKeywords])
    have hkPlo : containsSub (lc "ପ୍ଲଟ") (fullTextOf t) = false :=
      h1 _ (by simp [fieldKeywords])
    have hkKis : containsSub (lc "କିସମ") (fullTextOf t) = false :=
      h1 _ (by simp [fieldKeywords])
    have hkPad : containsSub (lc "ପଦର") (fullTextOf t) = false :=
      h1 _ (by simp [fieldKeywords])
    have hkPra : containsSub (lc "ପ୍ରଜାର") (fullTextOf t) = false :=
      h1 _ (by simp [fieldKeywords])
    have hkJam : containsSub (lc "ଜମିଦାରଙ୍କ") (fullTextOf t) = false :=
      h1 _ (by simp [fieldKeywords])
    have hkKhaR : containsSub (lc "ଖତିୟାନର") (fullTextOf t) = false :=
      containsSub_false_of_prefix (List.isPrefixOf_iff_prefix.mp (by decide)) hkKha
    have hkPraN : containsSub (lc "ପ୍ରଜାର ନାମ") (fullTextOf t) = false :=
      containsSub_false_of_prefix (List.isPrefixOf_iff_prefix.mp (by decide)) hkPra
    have hv : village_odia (fullTextOf t) (linesOf t) = notFound := by
      have hfv : find_value [simplePat "ମୌଜା"] (fullTextOf t) = notFound :=
        (find_value_cons_none (search_none_of_kw hkVil)).trans rfl
      simp only [village_odia]
      rw [hfv, if_pos rfl]
      exact gvl_notFound fun l hl => line_no_kw hkVil hl
    have hd : district_odia (fullTextOf t) (linesOf t) = notFound := by
      have hfv : find_value [simplePat "ଜିଲ୍ଲା"] (fullTextOf t) = notFound :=
        (find_value_cons_none (search_none_of_kw hkDis)).trans rfl
      simp only [district_odia]
      rw [hfv, if_pos rfl]
      exact gvl_notFound fun l hl => line_no_kw hkDis hl
    have hth : thana_odia (fullTextOf t) (linesOf t) = notFound := by
      have hfv : find_value [simplePat "ଥାନା"] (fullTextOf t) = notFound :=
        (find_value_cons_none (search_none_of_kw hkTha)).trans rfl
      simp only [thana_odia]
      rw [hfv, if_pos rfl]
      exact gvl_notFound fun l hl => line_no_kw hkTha hl
    have hte : tehsil_odia (fullTextOf t) (linesOf t) = notFound := by
      have hfv : find_value [simplePat "ତହସିଲ"] (fullTextOf t) = notFound :=
        (find_value_cons_none (search_none_of_kw hkTeh)).trans rfl
      simp only [tehsil_odia]
      rw [hfv, if_pos rfl]
      exact gvl_notFound fun l hl => line_no_kw hkTeh hl
    have hthn : thana_no (fullTextOf t) (linesOf t) = notFound := by
      have hfv : find_value [thanaNoPat1, thanaNoPat2] (fullTextOf t) = notFound :=
        ((find_value_cons_none (search_none_of_kw hkTha)).trans
          (find_value_cons_none (search_none_of_kw hkTha))).trans rfl
      simp only [thana_no]
      rw [hfv, if_pos rfl]
      exact thanaNoFallback_nf (linesOf t) fun l hl => line_no_kw hkTha hl
    have hten : tehsil_no (fullTextOf t) = notFound := by
      simp only [tehsil_no]
      exact (find_value_cons_none (search_none_of_kw hkTeh)).trans rfl
    have hkh : khata_no (fullTextOf t) = notFound := by
      simp only [khata_no]
      exact ((find_value_cons_none (search_none_of_kw hkKha)).trans
        (find_value_cons_none (search_none_of_kw hkKhaR))).trans rfl
    have hpl : plot_no (fullTextOf t) = notFound := by
      simp only [plot_no]
      exact ((find_value_cons_none (search_none_of_kw hkPlo)).trans
        (find_value_cons_none (search_none_of_kw hkPlo))).trans rfl
    have hla : land_type (fullTextOf t) = notFound := by
      have hfv : find_value [landPat1, landPat2, landPat3] (fullTextOf t) =
          notFound :=
        ((find_value_cons_none (search_none_of_kw hkKis)).trans
          ((find_value_cons_none (search_none_of_kw hkKis)).trans
            (find_value_cons_none (search_none_of_kw_grp hkPad)))).trans rfl
      have hfb : reSearch landFallbackPat (fullTextOf t) = none :=
        search_none_of_kw_grp hkPad
      simp only [land_type]
      rw [hfv, if_pos rfl, hfb]
    have har : area_odia (fullTextOf t) = notFound := by
      simp only [area_odia]
      exact ((find_value_cons_none (search_area1_none h2)).trans
        (find_value_cons_none (search_area2_none h2))).trans rfl
    have hidx : ownerStartIdx (fullTextOf t) = none := by
      have hsp1 : reSearch ownerStart1 (fullTextOf t) = none :=
        search_none_of_kw_second hkPra
      have hsp2 : reSearch ownerStart2 (fullTextOf t) = none :=
        search_none_of_kw hkJam
      have hsp3 : reSearch ownerStart3 (fullTextOf t) = none :=
        search_none_of_kw hkPraN
      simp only [ownerStartIdx]
      rw [hsp1, hsp2, hsp3]
    have hblock : extract_owner_names_block (fullTextOf t) (linesOf t) = [] := by
      unfold extract_owner_names_block
      rw [hidx, List.find?_eq_none.mpr fun l hl => by simp [h3 l hl]]
    have how : owner_names_odia (fullTextOf t) (linesOf t) = [] := by
      simp only [owner_names_odia]
      rw [hblock]
      simp
    have hshape : extract_info tr t =
        [("Village Name (Odia)", village_odia (fullTextOf t) (linesOf t)),
         ("Village Name (Latin)",
           if village_odia (fullTextOf t) (linesOf t) ≠ notFound then
             odia_to_latin (village_odia (fullTextOf t) (linesOf t)) else notFound),
         ("District (Odia)", district_odia (fullTextOf t) (linesOf t)),
         ("District (Latin)",
           if district_odia (fullTextOf t) (linesOf t) ≠ notFound then
             odia_to_latin (district_odia (fullTextOf t) (linesOf t)) else notFound),
         ("Police Station (Thana) (Odia)", thana_odia (fullTextOf t) (linesOf t)),
         ("Police Station (Thana) (Latin)",
           if thana_odia (fullTextOf t) (linesOf t) ≠ notFound then
             odia_to_latin (thana_odia (fullTextOf t) (linesOf t)) else notFound),
         ("Police Station No.", thana_no (fullTextOf t) (linesOf t)),
         ("Tehsil (Odia)", tehsil_odia (fullTextOf t) (linesOf t)),
         ("Tehsil (Latin)",
           if tehsil_odia (fullTextOf t) (linesOf t) ≠ notFound then
             odia_to_latin (tehsil_odia (fullTextOf t) (linesOf t)) else notFound),
         ("Tehsil No.", tehsil_no (fullTextOf t)),
         ("Khata No.", khata_no (fullTextOf t)),
         ("Plot No.", plot_no (fullTextOf t)),
         ("Land Type (Odia)", land_type (fullTextOf t)),
         ("Land Type (English)",
           if land_type (fullTextOf t) ≠ notFound then
             (let translated := translate_field tr (land_type (fullTextOf t))
              if !translated.isEmpty then translated
              else odia_to_latin (land_type (fullTextOf t)))
           else notFound),
         ("Area (hectares)",
           if area_odia (fullTextOf t) ≠ notFound then area_odia (fullTextOf t)
           else notFound),
         ("Owner Names (Odia)",
           if !(owner_names_odia (fullTextOf t) (linesOf t)).isEmpty then
             joinCommaSpace (owner_names_odia (fullTextOf t) (linesOf t))
           else notFound),
         ("Owner Names (Latin)",
           if !(owner_names_odia (fullTextOf t) (linesOf t)).isEmpty then
             joinCommaSpace ((owner_names_odia (fullTextOf t) (linesOf t)).map
               odia_to_latin)
           else notFound)] := rfl
    rw [hshape, hv, hd, hth, hte, hthn, hten, hkh, hpl, hla, har, how]
    simp [schemaKeys]
  · intro tr t
    rfl

/-- C5 witness: the all-sentinel result at a concrete keyword-free text. -/
theorem c5_witness :
    extract_info none (lc "hello") = schemaKeys.map fun k => (k, notFound) :=
  c5_no_keywords_all_sentinel.1 none (lc "hello") (by decide) (by decide)
    (by decide)

end Odia2Eng
